import Mathlib

/-!
# A verification development for the `kanna` visual-novel runtime

This file gives a shallow embedding, in Lean 4, of the core of the `kanna`
visual-novel engine (a Rust crate): the indentation-sensitive lexer
(`src/lexer.rs`), the command parser (`src/parser.rs`), the command algebra and
its execution (`src/lib.rs`), the animation system (`src/animation.rs`), the
stage of character instances (`src/character.rs`), and the script execution
engine with its advance/diverge/resume protocol (`src/game.rs`).

Modelling conventions:
* Rust `f32` values are modelled as exact rationals (`ℚ`).  None of the
  properties proved here depends on floating-point rounding; where the source
  would produce an infinity (a division by zero), the statements proved here
  stay away from that input.
* Rust `String` is modelled as `List Char`; byte indices into strings are
  modelled as `Nat` counting UTF-8 bytes (`Char.utf8Size`).
* `HashMap` is modelled as an association list with insert-or-replace;
  equality of association lists implies equality of the underlying maps.
* Panicking operations (`unwrap`, indexing with a missing key, out-of-range
  cursor) are modelled with `Option`: `none` is a panic.
* Loops whose termination is not structural (the run-to-break loop of
  `GameState::advance`, the replay loop of `GameState::load`, the lexer) take
  an explicit fuel argument; fuel-monotonicity lemmas make the choice of fuel
  immaterial, and for the lexer an explicit sufficient fuel is proved.
* Decoded image handles are modelled by their pixel dimensions (the only
  observable the core reads), audio voices by their path, volume and repeat
  flag (the only data the core writes into them).
-/

namespace Kanna

/-- An RGBA colour, modelling Rust `[f32; 4]`; `a` is `colour[3]`. -/
structure Colour where
  r : ℚ
  g : ℚ
  b : ℚ
  a : ℚ
deriving DecidableEq, Repr

/-- A decoded image handle, modelled by the pixel dimensions the core reads
(`Image::width`, `Image::height`). -/
structure Img where
  w : ℚ
  h : ℚ
deriving DecidableEq, Repr

/-- An audio voice (`ggez::audio::Source`), modelled by the data the engine
writes into it: the path of the decoded sound data it was created from, the
volume it was given and whether `set_repeat(true)` was called. -/
structure Voice where
  path : String
  volume : ℚ
  repeated : Bool
deriving DecidableEq, Repr

/-- Total UTF-8 byte length of a string, modelling Rust `String::len`. -/
def byteLen (s : List Char) : Nat :=
  s.foldr (fun c n => c.utf8Size + n) 0

/-- The suffix of `s` starting at byte offset `k`, or `none` when `k` does not
lie on a character boundary (where Rust string slicing would panic). -/
def charsAfter (s : List Char) (k : Nat) : Option (List Char) :=
  if k = 0 then some s else
    match s with
    | [] => none
    | c :: cs => if c.utf8Size ≤ k then charsAfter cs (k - c.utf8Size) else none

/-- `RenderText` from `src/interface.rs`: a string, a byte range `[start, stop)`
of it that is currently revealed, and a colour.  The Rust field `slice.end` is
called `stop` here (`end` is a Lean keyword). -/
structure RenderText where
  string : List Char
  start : Nat
  stop : Nat
  colour : Colour
deriving DecidableEq, Repr

namespace RenderText

/-- `RenderText::new`: all characters initially displayed
(`slice = 0..string.len()`). -/
def new (string : List Char) (colour : Colour) : RenderText :=
  { string := string, start := 0, stop := byteLen string, colour := colour }

/-- `RenderText::empty`: no characters initially displayed (`slice = 0..0`). -/
def empty (string : List Char) (colour : Colour) : RenderText :=
  { string := string, start := 0, stop := 0, colour := colour }

/-- `RenderText::finish`: reveal the whole string (`slice.end = len`). -/
def finish (t : RenderText) : RenderText :=
  { t with stop := byteLen t.string }

/-- `RenderText::is_finished`: `slice.end == string.len()`. -/
def is_finished (t : RenderText) : Bool :=
  t.stop == byteLen t.string

/-- `RenderText::step`: `self.string[slice.end..].char_indices().skip(1).next()`
is the second character of the unrevealed suffix together with the byte length
of the first one; when it exists, `slice.end` grows by that length, otherwise
(`0` or `1` characters left) `finish` is called.  `none` models the panic of
slicing at a non-boundary offset. -/
def step (t : RenderText) : Option RenderText :=
  match charsAfter t.string t.stop with
  | none => none
  | some rem =>
    match rem with
    | c₁ :: _ :: _ => some { t with stop := t.stop + c₁.utf8Size }
    | _ => some t.finish

/-- `n` iterated `step`s. -/
def stepN : Nat → RenderText → Option RenderText
  | 0, t => some t
  | n + 1, t => (step t).bind (stepN n)

end RenderText

/-- `k` is a UTF-8 character boundary of `s` (so Rust slicing at `k` succeeds). -/
def isBoundary (s : List Char) (k : Nat) : Bool :=
  (charsAfter s k).isSome

/-! ## Lexer (`src/lexer.rs`) -/

/-- `Token` from `src/parser.rs`.  Note that the lexer of `src/lexer.rs` has no
rule producing `squareOpen`, `squareClose` or `underscore`; the variants exist
because the parser's `animation` function consumes them. -/
inductive Token where
  | identifier (s : List Char)
  | string (s : List Char)
  | numeric (n : ℚ)
  | scopeOpen
  | scopeClose
  | bracketOpen
  | bracketClose
  | squareOpen
  | squareClose
  | listSeparator
  | underscore
  | terminator
deriving DecidableEq, Repr

/-- `ParserError` from `src/parser.rs`. -/
inductive ParserError where
  | unmatchedQuote
  | expectedIdentifier
  | expectedString
  | expectedNumeric
  | expected (t : Token)
  | unexpectedToken
  | invalidCommand
  | invalidNumeric
deriving DecidableEq, Repr

/-- Rust `char::is_ascii_punctuation`: `!..'/'`, `:..'@'`, `[..'`'`, `{..'~'`. -/
def isAsciiPunctuation (c : Char) : Bool :=
  ('!' ≤ c && c ≤ '/') || (':' ≤ c && c ≤ '@') || ('[' ≤ c && c ≤ '`') ||
    ('{' ≤ c && c ≤ '~')

/-- Rust `char::is_whitespace`: the Unicode `White_Space` property. -/
def isWhitespace (c : Char) : Bool :=
  (0x09 ≤ c.val && c.val ≤ 0x0D) || c.val == 0x20 || c.val == 0x85 ||
    c.val == 0xA0 || c.val == 0x1680 || (0x2000 ≤ c.val && c.val ≤ 0x200A) ||
    c.val == 0x2028 || c.val == 0x2029 || c.val == 0x202F || c.val == 0x205F ||
    c.val == 0x3000

/-- `src/lexer.rs` line 132: punctuation other than `-` and `.` ends a lexeme. -/
def isLexemePunctuation (c : Char) : Bool :=
  !(c == '-' || c == '.') && isAsciiPunctuation c

/-- A lexeme continues while the next character is neither whitespace nor
lexeme-breaking punctuation (`src/lexer.rs` lines 131-138). -/
def wordContinues (c : Char) : Bool :=
  !(isWhitespace c || isLexemePunctuation c)

/-- Numeric value of a digit string (most significant first). -/
def digitsVal (s : List Char) : ℚ :=
  s.foldl (fun a c => 10 * a + (c.toNat - '0'.toNat : ℕ)) 0

/-- Value of a fractional digit string (the part after the decimal point). -/
def fracVal (s : List Char) : ℚ :=
  s.foldr (fun c a => ((c.toNat - '0'.toNat : ℕ) + a) / 10) 0

/-- `string.parse::<f32>()` on a numeric lexeme, modelled for plain decimal
literals `[-] digits [. digits]`, `[-] . digits` and `[-] digits .` (at least
one digit).  Modelling note: Rust's float parser additionally accepts exponent
and `inf`/`nan` spellings; lexemes of those shapes start with a letter (hence
lex as identifiers) or are not exercised by the properties proved here. -/
def parseNumeric (s : List Char) : Option ℚ :=
  let core : List Char → Option ℚ := fun t =>
    let intPart := t.takeWhile Char.isDigit
    let rest := t.drop intPart.length
    match rest with
    | [] => if intPart.isEmpty then none else some (digitsVal intPart)
    | '.' :: frac =>
      if frac.all Char.isDigit && !(intPart.isEmpty && frac.isEmpty) then
        some (digitsVal intPart + fracVal frac)
      else none
    | _ => none
  match s with
  | '-' :: t => (core t).map Neg.neg
  | t => core t

/-- `escape`'s primitive: Rust `String::replace` of a two-character pattern
`a b` by the single character `r`, scanning left to right. -/
def replace2 (a b r : Char) : List Char → List Char
  | [] => []
  | [c] => [c]
  | c :: d :: rest =>
    if c = a ∧ d = b then r :: replace2 a b r rest
    else c :: replace2 a b r (d :: rest)

/-- `escape` from `src/lexer.rs`: `\n` then `\"` replacement, in that order. -/
def escape (s : List Char) : List Char :=
  replace2 '\\' '"' '"' (replace2 '\\' 'n' '\n' s)

/-- The string-literal loop of `Lexer::next` (`src/lexer.rs` lines 111-127),
started just after the opening quote.  Returns the raw slice between the
quotes (escape pairs kept verbatim, as in the source, where the slice is
taken from the original string) and the characters remaining after the
closing quote; `(none, rest)` models the `UnmatchedQuote` error, with the
iterator left at the offending position (the newline, or end of input). -/
def lexString : List Char → Option (List Char) × List Char
  | [] => (none, [])
  | '"' :: rest => (some [], rest)
  | '\n' :: rest => (none, '\n' :: rest)
  | '\\' :: [] => (none, [])
  | '\\' :: c :: rest =>
    match lexString rest with
    | (some s, r) => (some ('\\' :: c :: s), r)
    | (none, r) => (none, r)
  | c :: rest =>
    match lexString rest with
    | (some s, r) => (some (c :: s), r)
    | (none, r) => (none, r)

/-- The lexer state (`Lexer` from `src/lexer.rs`).  The original owns the whole
input and a `CharIndices` iterator; keeping just the unconsumed characters and
building lexemes from them directly is extensionally the same. -/
structure Lexer where
  chars : List Char
  indentation : Nat
  targetIndent : Nat
  newLine : Bool
deriving DecidableEq, Repr

/-- `Lexer::new`. -/
def Lexer.new (s : List Char) : Lexer :=
  { chars := s, indentation := 0, targetIndent := 0, newLine := true }

/-- The `new_line` block of `Lexer::next` (lines 79-92): count leading tabs,
and unless the line is blank (next is a newline or end of input) make the tab
count the new target indentation. -/
def scanLine (st : Lexer) : Lexer :=
  let rest := st.chars.dropWhile (· == '\t')
  let tgt :=
    match rest.head? with
    | none => st.targetIndent
    | some '\n' => st.targetIndent
    | some _ => (st.chars.takeWhile (· == '\t')).length
  { chars := rest, indentation := st.indentation, targetIndent := tgt,
    newLine := false }

/-- One call of `Lexer::next` (`src/lexer.rs` lines 66-152).  The result is
`none` when the fuel runs out (the source recursion always terminates, see
`lexNext_total`); `some (none, st)` models the iterator returning `None`
(end of stream); `some (some t, st')` yields the next token or error. -/
def lexNext : Nat → Lexer → Option (Option (Except ParserError Token) × Lexer)
  | 0, _ => none
  | fuel + 1, st =>
    match compare st.indentation st.targetIndent with
    | .lt => some (some (.ok .scopeOpen), { st with indentation := st.indentation + 1 })
    | .gt => some (some (.ok .scopeClose), { st with indentation := st.indentation - 1 })
    | .eq =>
      if st.newLine then
        lexNext fuel (scanLine st)
      else
        match st.chars with
        | [] =>
          if st.targetIndent = 0 then some (none, st)
          else lexNext fuel { st with targetIndent := 0 }
        | c :: rest =>
          if c = '(' then some (some (.ok .bracketOpen), { st with chars := rest })
          else if c = ')' then some (some (.ok .bracketClose), { st with chars := rest })
          else if c = ',' then some (some (.ok .listSeparator), { st with chars := rest })
          else if c = '\n' then
            some (some (.ok .terminator), { st with chars := rest, newLine := true })
          else if c = '"' then
            match lexString rest with
            | (some s, r) => some (some (.ok (.string (escape s))), { st with chars := r })
            | (none, r) => some (some (.error .unmatchedQuote), { st with chars := r })
          else if isWhitespace c then
            lexNext fuel { st with chars := rest }
          else
            let lexeme := c :: rest.takeWhile wordContinues
            let rest' := rest.dropWhile wordContinues
            if c = '-' ∨ c.isDigit then
              match parseNumeric lexeme with
              | some q => some (some (.ok (.numeric q)), { st with chars := rest' })
              | none => some (some (.error .invalidNumeric), { st with chars := rest' })
            else
              some (some (.ok (.identifier lexeme)), { st with chars := rest' })

/-- The full token stream: iterate `lexNext` until the stream ends. -/
def lexAll : Nat → Lexer → Option (List (Except ParserError Token))
  | 0, _ => none
  | fuel + 1, st =>
    match lexNext (fuel + 1) st with
    | none => none
    | some (none, _) => some []
    | some (some t, st') => (lexAll fuel st').map (t :: ·)

/-- Termination measure for the lexer: it strictly decreases on every
internal recursion of `lexNext` and across every produced token. -/
def mu (st : Lexer) : Nat :=
  4 * st.chars.length + (if st.newLine then 2 else 0) + st.indentation +
    2 * (st.targetIndent - st.indentation) +
    (if st.chars = [] ∧ st.targetIndent ≠ 0 then 1 else 0)

/-! ## Parser (`src/parser.rs`)

The Rust parser pulls tokens from a mutable `Lexer`; here every parsing
function threads the `Lexer` value explicitly.  Single-token operations are
total (`lexNext` is run with the provably sufficient fuel `mu lx + 1`);
the loops of the parser take explicit fuel. -/

/-- `Lexer::token`: `self.next().transpose()`. -/
def Lexer.token (lx : Lexer) : Except ParserError (Option Token) × Lexer :=
  match lexNext (mu lx + 1) lx with
  | none => (.ok none, lx)
  | some (none, lx') => (.ok none, lx')
  | some (some (.ok t), lx') => (.ok (some t), lx')
  | some (some (.error e), lx') => (.error e, lx')

/-- `Lexer::identifier` (errors from `token` propagate through the `?`). -/
def Lexer.identifier (lx : Lexer) : Except ParserError String × Lexer :=
  match lx.token with
  | (.error e, lx') => (.error e, lx')
  | (.ok (some (.identifier s)), lx') => (.ok (String.mk s), lx')
  | (.ok _, lx') => (.error .expectedIdentifier, lx')

/-- `Lexer::string`. -/
def Lexer.string (lx : Lexer) : Except ParserError String × Lexer :=
  match lx.token with
  | (.error e, lx') => (.error e, lx')
  | (.ok (some (.string s)), lx') => (.ok (String.mk s), lx')
  | (.ok _, lx') => (.error .expectedString, lx')

/-- `Lexer::numeric`. -/
def Lexer.numeric (lx : Lexer) : Except ParserError ℚ × Lexer :=
  match lx.token with
  | (.error e, lx') => (.error e, lx')
  | (.ok (some (.numeric n)), lx') => (.ok n, lx')
  | (.ok _, lx') => (.error .expectedNumeric, lx')

/-- `Lexer::expect`. -/
def Lexer.expect (t : Token) (lx : Lexer) : Except ParserError Unit × Lexer :=
  match lx.token with
  | (.error e, lx') => (.error e, lx')
  | (.ok r, lx') => if r = some t then (.ok (), lx') else (.error (.expected t), lx')

/-- `Lexer::skip_take`: drain tokens until the target token is consumed (or
the stream ends). -/
def Lexer.skip_take : Nat → Token → Lexer → Option Lexer
  | 0, _, _ => none
  | fuel + 1, target, lx =>
    match lexNext (mu lx + 1) lx with
    | none => none
    | some (none, lx') => some lx'
    | some (some tk, lx') =>
      if (match tk with | .ok t' => t' == target | .error _ => false) then some lx'
      else Lexer.skip_take fuel target lx'

/-- `AnimationDeclaration` from `src/animation.rs`. -/
structure AnimationDeclaration where
  name : String
  arguments : List (Option ℚ)
deriving DecidableEq, Repr

/-- `Command` from `src/lib.rs`, with the payload newtypes
(`InstanceName`, `CharacterName`, `StateName`, `Label`, `PathBuf`)
unwrapped to `String`.

Modelled from the spec: the `ifCmd`, `flag`, `unflag` and `pause` variants.
They are produced by `src/parser.rs` and `Command::Pause` is matched in
`src/game.rs`, but the `Command` enum (and `Command::execute`) in the
crate's `src/lib.rs` predates them; their execution effects are taken from
the specification (§4.3): `If(flag, label)` jumps when the flag is set,
`Flag`/`Unflag` set and clear the flag, `Pause` has no effect except being
a breaking command. -/
inductive Command where
  | change (inst : String) (state : String) (anim : Option AnimationDeclaration)
  | dialogue (character : Option String) (text : String)
  | diverge (branches : List (String × String))
  | showCmd (inst : String) (anim : Option AnimationDeclaration)
  | hide (inst : String) (anim : Option AnimationDeclaration)
  | position (inst : String) (pos : ℚ × ℚ) (anim : Option AnimationDeclaration)
  | kill (inst : String) (anim : Option AnimationDeclaration)
  | spawn (character : String) (state : String) (pos : ℚ × ℚ)
      (inst : Option String) (anim : Option AnimationDeclaration)
  | stage (path : String)
  | jump (label : String)
  | music (path : String)
  | sound (path : String)
  | ifCmd (flagName : String) (label : String)
  | flag (flagName : String)
  | unflag (flagName : String)
  | pause
deriving DecidableEq, Repr

/-- Insert-or-replace into an association list, modelling `HashMap::insert`
(later insertions of the same key overwrite). -/
def alInsert {α β : Type} [DecidableEq α] (k : α) (v : β) :
    List (α × β) → List (α × β)
  | [] => [(k, v)]
  | (k', v') :: rest =>
    if k' = k then (k, v) :: rest else (k', v') :: alInsert k v rest

/-- Association-list lookup, modelling `HashMap::get`. -/
def alGet {α β : Type} [DecidableEq α] (k : α) : List (α × β) → Option β
  | [] => none
  | (k', v') :: rest => if k' = k then some v' else alGet k rest

/-- The parse-time part of `Script`: commands and the label table. -/
structure PScript where
  commands : List Command
  labels : List (String × Nat)
deriving DecidableEq, Repr

namespace Parser

/-- Error type of command parsing: the error with its recovery token. -/
abbrev PR (α : Type) := Except (ParserError × Token) α

/-- The argument loop of `animation` (`src/parser.rs` lines 155-166).  The
separator check reproduces the source exactly: once an argument was pushed,
`expect(ListSeparator)` is called after reading each further token. -/
def animationArgs : Nat → Lexer → List (Option ℚ) →
    Option (PR (List (Option ℚ)) × Lexer)
  | 0, _, _ => none
  | fuel + 1, lx, args =>
    match lx.token with
    | (.error e, lx₁) => some (.error (e, .terminator), lx₁)
    | (.ok none, lx₁) => some (.ok args, lx₁)
    | (.ok (some tk), lx₁) =>
      if tk = .squareClose then some (.ok args, lx₁)
      else
        match (if args.isEmpty then (.ok (), lx₁) else lx₁.expect .listSeparator) with
        | (.error e, lx₂) => some (.error (e, .terminator), lx₂)
        | (.ok _, lx₂) =>
          match tk with
          | .underscore => animationArgs fuel lx₂ (args ++ [none])
          | .numeric n => animationArgs fuel lx₂ (args ++ [some n])
          | _ => some (.error (.unexpectedToken, tk), lx₂)

/-- `animation` from `src/parser.rs` (lines 144-168). -/
def animation (fuel : Nat) (check_with : Bool) (lx : Lexer) :
    Option (PR (Option AnimationDeclaration) × Lexer) :=
  let withCheck : PR Bool × Lexer :=
    if check_with then
      match lx.token with
      | (.error e, lx₁) => (.error (e, .terminator), lx₁)
      | (.ok none, lx₁) => (.ok true, lx₁)
      | (.ok (some .terminator), lx₁) => (.ok true, lx₁)
      | (.ok (some (.identifier w)), lx₁) =>
        if w = "with".toList then (.ok false, lx₁)
        else (.error (.unexpectedToken, .identifier w), lx₁)
      | (.ok (some tk), lx₁) => (.error (.unexpectedToken, tk), lx₁)
    else (.ok false, lx)
  match withCheck with
  | (.error e, lx₁) => some (.error e, lx₁)
  | (.ok true, lx₁) => some (.ok none, lx₁)
  | (.ok false, lx₁) =>
    match lx₁.identifier with
    | (.error e, lx₂) => some (.error (e, .terminator), lx₂)
    | (.ok name, lx₂) =>
      match lx₂.expect .squareOpen with
      | (.error e, lx₃) => some (.error (e, .terminator), lx₃)
      | (.ok _, lx₃) =>
        (animationArgs fuel lx₃ []).map fun (r, lx₄) =>
          match r with
          | .error e => (.error e, lx₄)
          | .ok args => (.ok (some ⟨name, args⟩), lx₄)

/-- `position` from `src/parser.rs` (lines 170-177). -/
def positionPair (lx : Lexer) : PR (ℚ × ℚ) × Lexer :=
  match lx.expect .bracketOpen with
  | (.error e, lx₁) => (.error (e, .terminator), lx₁)
  | (.ok _, lx₁) =>
    match lx₁.numeric with
    | (.error e, lx₂) => (.error (e, .terminator), lx₂)
    | (.ok x, lx₂) =>
      match lx₂.expect .listSeparator with
      | (.error e, lx₃) => (.error (e, .terminator), lx₃)
      | (.ok _, lx₃) =>
        match lx₃.numeric with
        | (.error e, lx₄) => (.error (e, .terminator), lx₄)
        | (.ok y, lx₄) =>
          match lx₄.expect .bracketClose with
          | (.error e, lx₅) => (.error (e, .terminator), lx₅)
          | (.ok _, lx₅) => (.ok (x, y), lx₅)

/-- `parse_diverge` from `src/parser.rs` (lines 179-196), returning the
collected branches.  Any token other than `ScopeClose`, `String` or
`Terminator` (including end of input and lexer errors) is `ExpectedString`. -/
def parse_diverge : Nat → Lexer → List (String × String) →
    Option (Except ParserError (List (String × String)) × Lexer)
  | 0, _, _ => none
  | fuel + 1, lx, branches =>
    match lx.token with
    | (.ok (some .scopeClose), lx₁) => some (.ok branches, lx₁)
    | (.ok (some (.string s)), lx₁) =>
      match lx₁.identifier with
      | (.error e, lx₂) => some (.error e, lx₂)
      | (.ok ident, lx₂) =>
        match lx₂.expect .terminator with
        | (.error e, lx₃) => some (.error e, lx₃)
        | (.ok _, lx₃) => parse_diverge fuel lx₃ (branches ++ [(String.mk s, ident)])
    | (.ok (some .terminator), lx₁) => parse_diverge fuel lx₁ branches
    | (_, lx₁) => some (.error .expectedString, lx₁)

/-- The parsing monad: the Rust parser threads a `&mut Lexer` and a
`&mut Script`; errors carry a recovery token and leave the partially built
script behind (commands pushed before the error survive, as in the source).
`none` is fuel exhaustion. -/
abbrev PM (α : Type) := Lexer × PScript → Option (PR α × (Lexer × PScript))

instance : Monad PM where
  pure a := fun s => some (.ok a, s)
  bind m f := fun s =>
    (m s).bind fun (r, s') =>
      match r with
      | .error e => some (.error e, s')
      | .ok a => f a s'

/-- `inline`: wrap a lexer-helper error with the `Terminator` recovery token. -/
def liftL {α : Type} (f : Lexer → Except ParserError α × Lexer) : PM α :=
  fun (lx, sc) =>
    match f lx with
    | (.ok a, lx') => some (.ok a, (lx', sc))
    | (.error e, lx') => some (.error (e, .terminator), (lx', sc))

/-- Raise a parse error (with its recovery token). -/
def perr {α : Type} (e : ParserError × Token) : PM α := fun s => some (.error e, s)

/-- `script.commands.push(c)`. -/
def pushC (c : Command) : PM Unit := fun (lx, sc) =>
  some (.ok (), (lx, { sc with commands := sc.commands ++ [c] }))

/-- `script.labels.insert(label, Target(script.commands.len()))`. -/
def insertLabel (l : String) : PM Unit := fun (lx, sc) =>
  some (.ok (), (lx, { sc with labels := alInsert l sc.commands.length sc.labels }))

/-- `animation` lifted into the parsing monad. -/
def animationM (fuel : Nat) (check_with : Bool) : PM (Option AnimationDeclaration) :=
  fun (lx, sc) => (animation fuel check_with lx).map fun (r, lx') => (r, (lx', sc))

/-- `position` lifted into the parsing monad. -/
def positionM : PM (ℚ × ℚ) := fun (lx, sc) =>
  let (r, lx') := positionPair lx
  some (r, (lx', sc))

/-- The `"diverge"` body: `parse_diverge` pushes the `Diverge` command on
success; its error is paired with the `ScopeClose` recovery token. -/
def parse_divergeM (fuel : Nat) : PM Unit := fun (lx, sc) =>
  (parse_diverge fuel lx []).map fun (r, lx') =>
    match r with
    | .ok branches =>
      (.ok (), (lx', { sc with commands := sc.commands ++ [.diverge branches] }))
    | .error e => (.error (e, .scopeClose), (lx', sc))

/-- Monadic versions of the single-token lexer helpers. -/
def tokenM : PM (Option Token) := liftL Lexer.token

/-- `lexer.identifier()` wrapped by `inline`. -/
def identM : PM String := liftL Lexer.identifier

/-- `lexer.string()` wrapped by `inline`. -/
def stringM : PM String := liftL Lexer.string

/-- `lexer.expect(t)` wrapped by `inline`. -/
def expectM (t : Token) : PM Unit := liftL (Lexer.expect t)

/-- `parse_command` from `src/parser.rs` (lines 55-138); `true` means end of
input was reached. -/
def parse_command (fuel : Nat) : PM Bool := do
  let initial ← tokenM
  match initial with
  | none => return true
  | some .terminator => return false
  | some (.identifier id) =>
    match String.mk id with
    | "change" => do
      let inst ← stringM
      let state ← stringM
      let anim ← animationM fuel true
      pushC (.change inst state anim)
      return false
    | "diverge" => do
      expectM .terminator
      expectM .scopeOpen
      parse_divergeM fuel
      return false
    | "label" => do
      let label ← identM
      insertLabel label
      return false
    | "position" => do
      let inst ← stringM
      let pos ← positionM
      let anim ← animationM fuel true
      pushC (.position inst pos anim)
      return false
    | "spawn" => do
      let character ← stringM
      let state ← stringM
      let pos ← positionM
      let nameTok ← tokenM
      match nameTok with
      | none => do
        pushC (.spawn character state pos none none)
        return false
      | some .terminator => do
        pushC (.spawn character state pos none none)
        return false
      | some (.identifier w) =>
        if w = "with".toList then do
          let anim ← animationM fuel false
          pushC (.spawn character state pos none anim)
          return false
        else perr (.unexpectedToken, .terminator)
      | some (.string s) => do
        let anim ← animationM fuel true
        pushC (.spawn character state pos (some (String.mk s)) anim)
        return false
      | some _ => perr (.unexpectedToken, .terminator)
    | "if" => do
      let flagName ← identM
      let label ← identM
      pushC (.ifCmd flagName label)
      return false
    | "pause" => do
      pushC .pause
      return false
    | "flag" => do
      let flagName ← identM
      pushC (.flag flagName)
      return false
    | "unflag" => do
      let flagName ← identM
      pushC (.unflag flagName)
      return false
    | "kill" => do
      let inst ← stringM
      let anim ← animationM fuel true
      pushC (.kill inst anim)
      return false
    | "show" => do
      let inst ← stringM
      let anim ← animationM fuel true
      pushC (.showCmd inst anim)
      return false
    | "hide" => do
      let inst ← stringM
      let anim ← animationM fuel true
      pushC (.hide inst anim)
      return false
    | "stage" => do
      let path ← stringM
      pushC (.stage path)
      return false
    | "jump" => do
      let label ← identM
      pushC (.jump label)
      return false
    | "music" => do
      let path ← stringM
      pushC (.music path)
      return false
    | "sound" => do
      let path ← stringM
      pushC (.sound path)
      return false
    | _ => perr (.invalidCommand, .terminator)
  | some (.string s) => do
    let nxt ← tokenM
    match nxt with
    | some .terminator => do
      pushC (.dialogue none (String.mk s))
      return false
    | some (.string d) => do
      pushC (.dialogue (some (String.mk s)) (String.mk d))
      expectM .terminator
      return false
    | _ => perr (.expected .terminator, .terminator)
  | some .scopeOpen => perr (.unexpectedToken, .scopeClose)
  | some _ => perr (.unexpectedToken, .terminator)

/-- `parse` from `src/parser.rs` (lines 33-53): run `parse_command` in a loop,
recovering from errors by draining the lexer up to the recovery token and
collecting the errors; a non-empty error list yields no script. -/
def parse : Nat → Lexer × PScript → List ParserError →
    Option (Except (List ParserError) PScript)
  | 0, _, _ => none
  | fuel + 1, s, errors =>
    match parse_command (fuel + 1) s with
    | none => none
    | some (.ok isEnd, (lx', sc')) =>
      if isEnd then
        some (match errors with | [] => .ok sc' | _ => .error errors)
      else parse fuel (lx', sc') errors
    | some (.error (e, target), (lx', sc')) =>
      match lx'.skip_take (mu lx' + 1) target with
      | none => none
      | some lx'' => parse fuel (lx'', sc') (errors ++ [e])

end Parser

/-- `parser::parse` applied to a source string, starting from a fresh lexer
and an empty script. -/
def parseScript (fuel : Nat) (input : String) :
    Option (Except (List ParserError) PScript) :=
  Parser.parse fuel (Lexer.new input.toList, ⟨[], []⟩) []

/-! ## Animation system (`src/animation.rs`)

The trait objects `Box<dyn Animation<InstanceParameter>>` are modelled as the
closed inductive `Anim` of the concrete animation types of `src/animation.rs`
(`GlideMove`, `GlideVisibility`, `FadeVisibility`, `FlipChange`); the
producers of `AnimationMap::default` are the only sources of such boxes. -/

/-- `AnimationState`. -/
inductive AnimationState where
  | Continue
  | Finished
deriving DecidableEq, Repr

/-- `InstanceParameter`: the snapshot of an instance handed to animations. -/
structure InstanceParameter where
  centre_position : ℚ × ℚ
  image : Img
  position : ℚ × ℚ
  scale : ℚ × ℚ
  visible : Bool
  colour : Colour
deriving DecidableEq, Repr

/-- `GlideVisibilityDirection`. -/
inductive GDir where
  | left
  | right
deriving DecidableEq, Repr

/-- `GlideMove`: the position animation behind `glide`. -/
structure GlideMove where
  destination : ℚ × ℚ
  time_period : ℚ
deriving DecidableEq, Repr

/-- The concrete animation objects of `src/animation.rs`. -/
inductive Anim where
  | glideMove (gm : GlideMove)
  | glideVisUninit (visible : Bool) (time_period : ℚ) (direction : GDir)
  | glideVisInit (visible : Bool) (gm : GlideMove) (original : ℚ × ℚ)
  | fadeVisibility (time_period : ℚ) (rate : ℚ) (visibility : Bool) (alpha : ℚ)
  | flipChange (time_period : ℚ) (time_left : ℚ) (new_centre : ℚ × ℚ)
      (new_image : Img) (new_scale : ℚ × ℚ) (original_scale : Option (ℚ × ℚ))
deriving DecidableEq, Repr

/-- `GlideMove::update` (`src/animation.rs` lines 236-257), with the frame
delta time (in milliseconds) passed explicitly.  Note the source moves by
`position_difference / time_left * 1000.0` where `time_left` is the period
remaining *after* subtracting `delta_time`. -/
def GlideMove.update (gm : GlideMove) (p : InstanceParameter) (delta_time : ℚ) :
    AnimationState × GlideMove × InstanceParameter :=
  let time_left := gm.time_period - delta_time
  if 0 < gm.time_period then
    let position_difference :=
      (gm.destination.1 - p.position.1, gm.destination.2 - p.position.2)
    let position_delta :=
      (position_difference.1 / time_left * 1000, position_difference.2 / time_left * 1000)
    (.Continue, { gm with time_period := time_left },
      { p with position :=
          (p.position.1 + position_delta.1, p.position.2 + position_delta.2) })
  else (.Finished, gm, p)

/-- `Animation::finish` for each concrete animation:
`GlideMove` forces `position = destination`; `GlideVisibility` forces the
stored final visibility and (once initialised) the original position;
`FadeVisibility` restores alpha `1.0` and forces the stored visibility;
`FlipChange` forces the new image, centre and scale. -/
def Anim.finish : Anim → InstanceParameter → InstanceParameter
  | .glideMove gm, p => { p with position := gm.destination }
  | .glideVisUninit vis _ _, p => { p with visible := vis }
  | .glideVisInit vis _ original, p => { p with visible := vis, position := original }
  | .fadeVisibility _ _ visibility _, p =>
    { p with colour := { p.colour with a := 1 }, visible := visibility }
  | .flipChange _ _ nc ni ns _, p =>
    { p with image := ni, centre_position := nc, scale := ns }

/-- `PositionAnimation`. -/
structure PositionAnimation where
  destination : ℚ × ℚ
  arguments : List (Option ℚ)

/-- `ShowAnimation`. -/
structure ShowAnimation where
  arguments : List (Option ℚ)
  view_dimensions : ℚ × ℚ

/-- `HideAnimation`. -/
structure HideAnimation where
  arguments : List (Option ℚ)
  view_dimensions : ℚ × ℚ

/-- `SpawnAnimation`. -/
structure SpawnAnimation where
  arguments : List (Option ℚ)
  view_dimensions : ℚ × ℚ

/-- `KillAnimation`. -/
structure KillAnimation where
  arguments : List (Option ℚ)
  view_dimensions : ℚ × ℚ

/-- `ChangeAnimation`: the target image, centre and scale carried by a change
animation. -/
structure ChangeAnimation where
  new_centre_position : ℚ × ℚ
  new_image : Img
  new_scale : ℚ × ℚ
  arguments : List (Option ℚ)

/-- First optional argument, or a default: `arguments.first().and_then(|p| *p)
.unwrap_or(default)`. -/
def argOr (arguments : List (Option ℚ)) (default : ℚ) : ℚ :=
  (arguments.head?.bind id).getD default

/-- Second optional argument as a glide direction (`0 = Left`, `1 = Right`,
default `Left`). -/
def argDir (arguments : List (Option ℚ)) : GDir :=
  let d := ((arguments.get? 1).bind id).getD 0
  if d = 1 then .right else if d = 0 then .left else .left

/-- `impl AnimationProducer<PositionAnimation> for Glide`: duration defaults
to 10 000 ms. -/
def Glide.positionProducer (a : PositionAnimation) : Anim :=
  .glideMove { destination := a.destination, time_period := argOr a.arguments 10000 }

/-- `impl AnimationProducer<ShowAnimation> for Glide`. -/
def Glide.showProducer (a : ShowAnimation) : Anim :=
  .glideVisUninit true (argOr a.arguments 10000) (argDir a.arguments)

/-- `impl AnimationProducer<HideAnimation> for Glide`. -/
def Glide.hideProducer (a : HideAnimation) : Anim :=
  .glideVisUninit false (argOr a.arguments 10000) (argDir a.arguments)

/-- `impl AnimationProducer<SpawnAnimation> for Glide`. -/
def Glide.spawnProducer (a : SpawnAnimation) : Anim :=
  .glideVisUninit true (argOr a.arguments 10000) (argDir a.arguments)

/-- `impl AnimationProducer<KillAnimation> for Glide` (the source passes
`true` as the final visibility here). -/
def Glide.killProducer (a : KillAnimation) : Anim :=
  .glideVisUninit true (argOr a.arguments 10000) (argDir a.arguments)

/-- `impl AnimationProducer<ShowAnimation> for Fade` (default 250 ms; in ℚ a
zero period gives rate `0` where `f32` would give an infinity — no property
proved here exercises that input). -/
def Fade.showProducer (a : ShowAnimation) : Anim :=
  let time_period := argOr a.arguments 250
  .fadeVisibility time_period (1 / time_period) true 0

/-- `impl AnimationProducer<HideAnimation> for Fade`. -/
def Fade.hideProducer (a : HideAnimation) : Anim :=
  let time_period := argOr a.arguments 250
  .fadeVisibility time_period (-(1 / time_period)) false 1

/-- `impl AnimationProducer<SpawnAnimation> for Fade`. -/
def Fade.spawnProducer (a : SpawnAnimation) : Anim :=
  let time_period := argOr a.arguments 250
  .fadeVisibility time_period (1 / time_period) true 0

/-- `impl AnimationProducer<KillAnimation> for Fade`. -/
def Fade.killProducer (a : KillAnimation) : Anim :=
  let time_period := argOr a.arguments 250
  .fadeVisibility time_period (-(1 / time_period)) false 1

/-- `impl AnimationProducer<ChangeAnimation> for Flip` (default 100 ms). -/
def Flip.changeProducer (a : ChangeAnimation) : Anim :=
  let time_period := argOr a.arguments 100
  .flipChange time_period time_period a.new_centre_position a.new_image
    a.new_scale none

/-- `AnimationMap`: for each command category, the name-keyed producer
registry. -/
structure AnimationMap where
  change : String → Option (ChangeAnimation → Anim)
  position : String → Option (PositionAnimation → Anim)
  showP : String → Option (ShowAnimation → Anim)
  hideP : String → Option (HideAnimation → Anim)
  spawnP : String → Option (SpawnAnimation → Anim)
  killP : String → Option (KillAnimation → Anim)

/-- `AnimationMap::default`: the built-in producers. -/
def AnimationMap.default : AnimationMap where
  change := fun n => if n = "flip" then some Flip.changeProducer else none
  position := fun n => if n = "glide" then some Glide.positionProducer else none
  showP := fun n =>
    if n = "fade" then some Fade.showProducer
    else if n = "glide" then some Glide.showProducer else none
  hideP := fun n =>
    if n = "fade" then some Fade.hideProducer
    else if n = "glide" then some Glide.hideProducer else none
  spawnP := fun n =>
    if n = "fade" then some Fade.spawnProducer
    else if n = "glide" then some Glide.spawnProducer else none
  killP := fun n =>
    if n = "fade" then some Fade.killProducer
    else if n = "glide" then some Glide.killProducer else none

/-! ## Characters, instances and the stage (`src/character.rs`) -/

/-- `CharacterState` (named `State` in the older `src/lib.rs`). -/
structure CharacterState where
  image : String
  centre_position : Option (Nat × Nat)
  scale : ℚ × ℚ
deriving DecidableEq, Repr

/-- `Characters`: character name → state name → `CharacterState`. -/
def Characters := List (String × List (String × CharacterState))

/-- The `Index<(&CharacterName, &StateName)>` lookup (panic modelled as
`none`). -/
def Characters.index (cs : Characters) (character state : String) :
    Option CharacterState :=
  (alGet character cs).bind (alGet state)

/-- `Instance` from `src/character.rs`. -/
structure Instance where
  animation : Option Anim
  character : String
  centre_position : ℚ × ℚ
  image : Img
  position : ℚ × ℚ
  scale : ℚ × ℚ
  visible : Bool
  colour : Colour
  tbk : Bool
deriving DecidableEq, Repr

/-- `Instance::create_parameter`. -/
def Instance.create_parameter (i : Instance) : InstanceParameter :=
  { centre_position := i.centre_position, image := i.image,
    position := i.position, scale := i.scale, visible := i.visible,
    colour := i.colour }

/-- `Instance::update_with_parameter`. -/
def Instance.update_with_parameter (i : Instance) (p : InstanceParameter) :
    Instance :=
  { i with
    centre_position := p.centre_position, image := p.image,
    position := p.position, scale := p.scale, visible := p.visible,
    colour := p.colour }

/-- `Instance::add_animation`: an already attached animation is finished
(its terminal state written back) before the new one is installed. -/
def Instance.add_animation (i : Instance) (a : Anim) : Instance :=
  match i.animation with
  | some old =>
    { i.update_with_parameter (old.finish i.create_parameter) with
      animation := some a }
  | none => { i with animation := some a }

/-- `Instance::finish_animation`: detach and finish any attached animation. -/
def Instance.finish_animation (i : Instance) : Instance :=
  match i.animation with
  | some a =>
    { i.update_with_parameter (a.finish i.create_parameter) with
      animation := none }
  | none => i

/-- The stage: instance name → `Instance` (a `HashMap` in the source). -/
def Stage := List (String × Instance)

instance : DecidableEq Stage :=
  inferInstanceAs (DecidableEq (List (String × Instance)))

/-- `Stage::spawn`: `HashMap::insert`, replacing any instance already under
that name wholesale. -/
def Stage.spawn (stage : Stage) (name : String) (inst : Instance) : Stage :=
  alInsert name inst stage

/-- `Stage::remove` (no effect when the name is absent, like
`HashMap::remove`). -/
def Stage.remove (stage : Stage) (name : String) : Stage :=
  stage.filter (fun p => p.1 ≠ name)

/-- `Stage::finish_animation`: `retain` finishes every instance's animation
and drops the instances whose `tbk` flag is set. -/
def Stage.finish_animation (stage : Stage) : Stage :=
  (stage.map (fun p => (p.1, p.2.finish_animation))).filter (fun p => !p.2.tbk)

/-! ## Script, state, render and settings (`src/lib.rs`) -/

/-- `Script`: commands, labels, characters and the loaded resources.  Audio
data carries no observable content, so `audio` is the set of loaded paths. -/
structure Script where
  characters : Characters
  commands : List Command
  labels : List (String × Nat)
  images : List (String × Img)
  audio : List String
  animations : AnimationMap

/-- `Instance::new` (`src/character.rs` lines 84-91): resolve the character
state and image (both lookups panic when missing), defaulting the centre to
the image's pixel centre. -/
def Instance.new (script : Script) (character : String) (state : String)
    (position : ℚ × ℚ) : Option Instance := do
  let st ← script.characters.index character state
  let image ← alGet st.image script.images
  let centre_position :=
    match st.centre_position with
    | some (x, y) => ((x : ℚ), (y : ℚ))
    | none => (image.w / 2, image.h / 2)
  pure
    { animation := none, character := character,
      centre_position := centre_position, colour := ⟨1, 1, 1, 1⟩,
      image := image, position := position, scale := st.scale,
      visible := true, tbk := false }

/-- `ChangeAnimation::new` (`src/animation.rs` lines 151-165). -/
def ChangeAnimation.new (arguments : List (Option ℚ)) (character : String)
    (script : Script) (state : String) : Option ChangeAnimation := do
  let st ← script.characters.index character state
  let new_image ← alGet st.image script.images
  let new_centre_position :=
    match st.centre_position with
    | some (x, y) => ((x : ℚ), (y : ℚ))
    | none => (new_image.w / 2, new_image.h / 2)
  pure
    { new_centre_position := new_centre_position, new_image := new_image,
      new_scale := st.scale, arguments := arguments }

/-- `ScriptState`.  The `flags` field is modelled from the spec (§3): it is
used by the `flag`/`unflag`/`if` commands of the parser and engine but absent
from the older `src/lib.rs`. -/
structure ScriptState where
  target : Nat
  next_target : Option Nat
  flags : List String
  music : Option Voice
  sounds : List Voice
deriving DecidableEq, Repr

/-- `ScriptState::default`. -/
def ScriptState.default : ScriptState :=
  { target := 0, next_target := none, flags := [], music := none, sounds := [] }

/-- `graphics::Align` (only `Left` and `Center` are used). -/
inductive Align where
  | left
  | center
deriving DecidableEq, Repr

/-- `TextBox` from `src/interface.rs`. -/
structure TextBox where
  text : RenderText
  position : ℚ × ℚ
  size : ℚ × ℚ
  colour : Colour
  padding : ℚ
  alignment : Align
deriving DecidableEq, Repr

/-- `TextBox::new`. -/
def TextBox.new (text : RenderText) (position : ℚ × ℚ) (size : ℚ × ℚ)
    (colour : Colour) : TextBox :=
  { text := text, position := position, size := size, colour := colour,
    padding := 0, alignment := .left }

/-- `TextBox::padding`. -/
def TextBox.paddingWith (t : TextBox) (padding : ℚ) : TextBox :=
  { t with padding := padding }

/-- `TextBox::alignment`. -/
def TextBox.alignmentWith (t : TextBox) (alignment : Align) : TextBox :=
  { t with alignment := alignment }

/-- `Button` from `src/interface.rs`. -/
structure Button where
  text : TextBox
  defaultColour : Colour
  hover : Colour
deriving DecidableEq, Repr

/-- `Render` from `src/interface.rs`.  The `shadow_bars` rectangles are
written only by the window-resize handler (backend geometry, outside the
embedded semantics) and are omitted. -/
structure Render where
  background : Option Img
  stage : Stage
  character : Option TextBox
  text : Option TextBox
  branches : List (Button × String)
deriving DecidableEq

/-- `Render::default`. -/
def Render.default : Render :=
  { background := none, stage := ([] : List (String × Instance)),
    character := none, text := none, branches := [] }

/-- `Settings` from `src/lib.rs` (the fields the embedded semantics reads). -/
structure Settings where
  width : ℚ
  height : ℚ
  text_speed : Nat
  background_colour : Colour
  foreground_colour : Colour
  secondary_colour : Colour
  interface_margin : ℚ
  text_box_height : ℚ
  character_name_width : ℚ
  character_name_height : ℚ
  branch_button_width : ℚ
  branch_button_height : ℚ
  music_volume : ℚ
  sound_volume : ℚ
deriving DecidableEq, Repr

/-- `Settings::default`. -/
def Settings.default : Settings :=
  { width := 640, height := 480, text_speed := 32,
    background_colour := ⟨8/10, 8/10, 8/10, 8/10⟩,
    foreground_colour := ⟨0, 0, 0, 1⟩,
    secondary_colour := ⟨1/2, 1/2, 1/2, 1⟩,
    interface_margin := 8, text_box_height := 1/4,
    character_name_width := 1/4, character_name_height := 8/100,
    branch_button_width := 3/10, branch_button_height := 1/10,
    music_volume := 1, sound_volume := 1 }

/-! ## Command execution (`Command::execute`, `src/lib.rs` lines 54-179) -/

/-- `Button::new`. -/
def Button.new (text : TextBox) (defaultColour hover : Colour) : Button :=
  { text := text, defaultColour := defaultColour, hover := hover }

/-- The `Command::Dialogue` arm (lines 70-88): always installs a fresh body
text box with an empty reveal slice; when a character name is present it also
installs the character-name box.  Note the source has no `else` branch
clearing `render.character` when the name is absent. -/
def executeDialogue (settings : Settings) (character : Option String)
    (string : String) (render : Render) : Render :=
  let height := settings.height * settings.text_box_height - settings.interface_margin
  let width := settings.width - 2 * settings.interface_margin
  let size := (width, height - settings.interface_margin)
  let position := (settings.interface_margin, settings.height - height)
  let text := RenderText.empty string.toList settings.foreground_colour
  let box := (TextBox.new text position size
    settings.background_colour).paddingWith settings.interface_margin
  let render₁ := { render with text := some box }
  match character with
  | none => render₁
  | some ch =>
    let character_height := settings.height * settings.character_name_height
    let position := (settings.interface_margin, settings.height -
      (height + settings.interface_margin + character_height))
    let width := settings.width * settings.character_name_width - settings.interface_margin
    let text := RenderText.new ch.toList settings.foreground_colour
    let chBox := (TextBox.new text position (width, character_height)
      settings.background_colour).paddingWith settings.interface_margin
    { render₁ with character := some chBox }

/-- The button-building iteration of the `Command::Diverge` arm: one button
per branch, each at the running height `position_y`, which then grows by
`true_height` (the source maps over the branches with a mutable
`position_y`). -/
def divergeButtons (settings : Settings) (position_x : ℚ) (size : ℚ × ℚ)
    (true_height : ℚ) : List (String × String) → ℚ → List (Button × String)
  | [], _ => []
  | (string, label) :: rest, position_y =>
    let text := RenderText.new string.toList settings.foreground_colour
    let box := ((TextBox.new text (position_x, position_y) size
      settings.background_colour).alignmentWith .center).paddingWith
      settings.interface_margin
    (Button.new box settings.background_colour settings.secondary_colour,
      label) ::
      divergeButtons settings position_x size true_height rest
        (position_y + true_height)

/-- The `Command::Diverge` arm (lines 89-107): build one button per branch,
stacked vertically from a centred starting height. -/
def executeDiverge (settings : Settings) (branches : List (String × String))
    (render : Render) : Render :=
  let button_height := settings.height * settings.branch_button_height
  let button_width := settings.width * settings.branch_button_width
  let position_x := (settings.width - button_width) / 2
  let size := (button_width, button_height)
  let true_height := button_height + settings.interface_margin
  let position_y := (settings.height - (branches.length : ℚ) * true_height) / 2
  { render with branches :=
      divergeButtons settings position_x size true_height branches position_y }

/-- `Command::execute` (`src/lib.rs` lines 55-178).  `none` models a panic
(missing instance, unknown animation name, unresolved resource or label).

Modelled from the spec: the `ifCmd`/`flag`/`unflag`/`pause` arms (these
variants are absent from the `Command` enum of the crate's `src/lib.rs`,
see `Command`); per §4.3 `If` behaves like `Jump` when the flag is set,
`Flag`/`Unflag` set and clear the flag, and `Pause` is a no-op. -/
def Command.execute (script : Script) (settings : Settings) :
    Command → ScriptState → Render → Option (ScriptState × Render)
  | .change instName stateName anim, state, render => do
    let inst ← alGet instName render.stage
    match anim with
    | some a => do
      let change_animation ← ChangeAnimation.new a.arguments inst.character script stateName
      let producer ← script.animations.change a.name
      let inst' := inst.add_animation (producer change_animation)
      pure (state, { render with stage := alInsert instName inst' render.stage })
    | none => do
      let fresh ← Instance.new script inst.character stateName inst.position
      pure (state, { render with stage := alInsert instName fresh render.stage })
  | .dialogue character string, state, render =>
    pure (state, executeDialogue settings character string render)
  | .diverge branches, state, render =>
    pure (state, executeDiverge settings branches render)
  | .showCmd instName anim, state, render => do
    let inst ← alGet instName render.stage
    match anim with
    | some a => do
      let producer ← script.animations.showP a.name
      let inst' := inst.add_animation (producer
        { arguments := a.arguments, view_dimensions := (settings.width, settings.height) })
      pure (state, { render with stage := alInsert instName inst' render.stage })
    | none =>
      let stage' := alInsert instName { inst with visible := true } render.stage
      pure (state, { render with stage := stage' })
  | .hide instName anim, state, render => do
    let inst ← alGet instName render.stage
    match anim with
    | some a => do
      let producer ← script.animations.hideP a.name
      let inst' := inst.add_animation (producer
        { arguments := a.arguments, view_dimensions := (settings.width, settings.height) })
      pure (state, { render with stage := alInsert instName inst' render.stage })
    | none =>
      let stage' := alInsert instName { inst with visible := false } render.stage
      pure (state, { render with stage := stage' })
  | .position instName pos anim, state, render => do
    let inst ← alGet instName render.stage
    match anim with
    | some a => do
      let position_animation : PositionAnimation :=
        { destination := pos, arguments := a.arguments }
      let producer ← script.animations.position a.name
      let inst' := inst.add_animation (producer position_animation)
      pure (state, { render with stage := alInsert instName inst' render.stage })
    | none =>
      let stage' := alInsert instName { inst with position := pos } render.stage
      pure (state, { render with stage := stage' })
  | .kill instName anim, state, render =>
    match anim with
    | some a => do
      let inst ← alGet instName render.stage
      let producer ← script.animations.killP a.name
      let inst' := inst.add_animation (producer
        { arguments := a.arguments, view_dimensions := (settings.width, settings.height) })
      let stage' := alInsert instName { inst' with tbk := true } render.stage
      pure (state, { render with stage := stage' })
    | none =>
      pure (state, { render with stage := render.stage.remove instName })
  | .spawn character stateName pos instName anim, state, render => do
    let inst ← Instance.new script character stateName pos
    let instance_name := instName.getD character
    let stage₁ := render.stage.spawn instance_name inst
    match anim with
    | some a => do
      let producer ← script.animations.spawnP a.name
      let placed ← alGet instance_name stage₁
      let inst' := placed.add_animation (producer
        { arguments := a.arguments, view_dimensions := (settings.width, settings.height) })
      pure (state, { render with stage := alInsert instance_name inst' stage₁ })
    | none => pure (state, { render with stage := stage₁ })
  | .stage path, state, render => do
    let image ← alGet path script.images
    pure (state, { render with background := some image })
  | .jump label, state, render => do
    let target ← alGet label script.labels
    pure ({ state with next_target := some target }, render)
  | .music path, state, render =>
    if path ∈ script.audio then
      let voice : Voice :=
        { path := path, volume := settings.music_volume, repeated := true }
      pure ({ state with music := some voice }, render)
    else none
  | .sound path, state, render =>
    if path ∈ script.audio then
      let voice : Voice :=
        { path := path, volume := settings.sound_volume, repeated := false }
      pure ({ state with music := some voice }, render)
    else none
  | .ifCmd flagName label, state, render =>
    if flagName ∈ state.flags then do
      let target ← alGet label script.labels
      pure ({ state with next_target := some target }, render)
    else pure (state, render)
  | .flag flagName, state, render =>
    let flags' :=
      if flagName ∈ state.flags then state.flags else state.flags ++ [flagName]
    pure ({ state with flags := flags' }, render)
  | .unflag flagName, state, render =>
    pure ({ state with flags := state.flags.filter (· ≠ flagName) }, render)
  | .pause, state, render => pure (state, render)

/-- A breaking command pauses the run loop (`src/game.rs` lines 53-58). -/
def Command.isBreaking : Command → Bool
  | .pause => true
  | .diverge _ => true
  | .dialogue _ _ => true
  | _ => false

/-! ## Script engine (`src/game.rs`) -/

/-- `History`.  Modelled from the spec (§3, §6): the struct itself lives
outside the files under `src/`; its two fields — `execution_count`, the
number of commands executed since start, and `divergences`, the ordered
list of chosen labels — are fixed by their uses in `GameState::load`,
`GameState::advance` and `GameState::diverge` and by the spec. -/
structure History where
  execution_count : Nat
  divergences : List String
deriving DecidableEq, Repr

/-- `History::default`. -/
def History.default : History := { execution_count := 0, divergences := [] }

/-- The mutable part of `GameState` (the script and settings are fixed and
passed as parameters below). -/
structure GameState where
  history : History
  state : ScriptState
  render : Render
deriving DecidableEq

/-- The run-to-break loop of `GameState::advance` (`src/game.rs` lines
44-59): bump the execution count, move the cursor (a pending `next_target`
wins and is cleared, otherwise the cursor advances by one), execute the
command there, and stop if it is breaking.  `none` is a panic (out-of-range
cursor or a failing command) or fuel exhaustion. -/
def runLoop (script : Script) (settings : Settings) :
    Nat → GameState → Option GameState
  | 0, _ => none
  | fuel + 1, g => do
    let count := g.history.execution_count + 1
    let target := g.state.next_target.getD (g.state.target + 1)
    let state₁ := { g.state with target := target, next_target := none }
    let command ← script.commands.get? target
    let (state₂, render₂) ← command.execute script settings state₁ g.render
    let g' : GameState :=
      { history := { g.history with execution_count := count },
        state := state₂, render := render₂ }
    if command.isBreaking then pure g' else runLoop script settings fuel g'

/-- `GameState::advance` (`src/game.rs` lines 40-61): finish all stage
animations; an unfinished dialogue reveal is finished and stops the call
(short-circuit), otherwise the run loop executes commands up to the next
breaking one. -/
def advance (script : Script) (settings : Settings) (fuel : Nat)
    (g : GameState) : Option GameState :=
  let g₁ := { g with render := { g.render with stage := g.render.stage.finish_animation } }
  match g₁.render.text with
  | some text =>
    if !text.text.is_finished then
      some { g₁ with render := { g₁.render with text := some { text with text := text.text.finish } } }
    else runLoop script settings fuel g₁
  | none => runLoop script settings fuel g₁

/-- `GameState::diverge` (`src/game.rs` lines 64-70): record the chosen
label, aim `next_target` at its target, clear the branch buttons and
advance. -/
def diverge (script : Script) (settings : Settings) (fuel : Nat)
    (label : String) (g : GameState) : Option GameState := do
  let target ← alGet label script.labels
  advance script settings fuel
    { history := { g.history with divergences := g.history.divergences ++ [label] },
      state := { g.state with next_target := some target },
      render := { g.render with branches := [] } }

/-- The fresh state built at the top of `GameState::load`: default history,
state and render, with `next_target = Some(Target::default())`. -/
def boot : GameState :=
  { history := History.default,
    state := { ScriptState.default with next_target := some 0 },
    render := Render.default }

/-- The replay loop of `GameState::load` (`src/game.rs` lines 28-34): while
the replayed execution count is below the recorded one, pop and take the
next recorded divergence when the current command is a `Diverge`, otherwise
advance.  Returns the final state and the unconsumed divergences.  The
source reverses the recorded list and pops from the back, which consumes
the divergences in recorded order; here they are consumed from the front of
the original list. -/
def resume (script : Script) (settings : Settings) :
    Nat → Nat → List String → GameState → Option (GameState × List String)
  | fuel, targetCount, pending, g =>
    if targetCount ≤ g.history.execution_count then some (g, pending) else
    match fuel with
    | 0 => none
    | fuel + 1 => do
      let command ← script.commands.get? g.state.target
      match command with
      | .diverge _ =>
        match pending with
        | [] => none
        | label :: rest => do
          let g' ← diverge script settings fuel label g
          resume script settings fuel targetCount rest g'
      | _ => do
        let g' ← advance script settings fuel g
        resume script settings fuel targetCount pending g'

/-- `GameState::load` (`src/game.rs` lines 20-38): replay a recorded history
from the boot state; the final `assert!` that every recorded divergence was
consumed is the `rest = []` check. -/
def load (script : Script) (settings : Settings) (fuel : Nat)
    (history : History) : Option GameState := do
  let (g, rest) ← resume script settings fuel history.execution_count
    history.divergences boot
  if rest = [] then some g else none

/-- A user input event: a click outside the branch buttons (advance), or a
click on the branch button carrying `label`. -/
inductive Ev where
  | adv
  | div (label : String)
deriving DecidableEq, Repr

/-- The labels of the branch buttons currently on screen. -/
def branchLabels (g : GameState) : List String :=
  g.render.branches.map (·.2)

/-- One user input, as routed by `mouse_button_down_event` (`src/game.rs`
lines 98-110): when the current command is a `Diverge`, only a click on one
of the installed branch buttons does anything (and diverges to its label);
otherwise any click advances.  `none` covers panics and inputs that the
live UI cannot produce (an advance at a pending `Diverge`, a divergence
anywhere else or to an absent button). -/
def liveStep (script : Script) (settings : Settings) (fuel : Nat) (ev : Ev)
    (g : GameState) : Option GameState := do
  let command ← script.commands.get? g.state.target
  match command, ev with
  | .diverge _, .div label =>
    if label ∈ branchLabels g then diverge script settings fuel label g else none
  | .diverge _, .adv => none
  | _, .div _ => none
  | _, .adv => advance script settings fuel g

/-- A live run: the boot state fed a sequence of user inputs. -/
def liveRun (script : Script) (settings : Settings) (fuel : Nat) :
    List Ev → GameState → Option GameState
  | [], g => some g
  | ev :: evs, g =>
    (liveStep script settings fuel ev g).bind (liveRun script settings fuel evs)

/-- The dialogue text box is absent or fully revealed, i.e. the guard under
which `advance` enters the run loop rather than short-circuiting. -/
def textFinishedOrNone (g : GameState) : Bool :=
  match g.render.text with
  | none => true
  | some tb => tb.text.is_finished

/-! ## Instrumented run loop

`runLoopN`/`advanceN`/`advSeqN` mirror `runLoop`/`advance` exactly while also
counting, per call, how many run-loop iterations (= executed commands) took
place; a short-circuited advance contributes zero.  `advanceN_fst` below
proves the instrumentation faithful. -/

/-- `runLoop`, also returning the number of iterations performed. -/
def runLoopN (script : Script) (settings : Settings) :
    Nat → GameState → Option (GameState × Nat)
  | 0, _ => none
  | fuel + 1, g => do
    let count := g.history.execution_count + 1
    let target := g.state.next_target.getD (g.state.target + 1)
    let state₁ := { g.state with target := target, next_target := none }
    let command ← script.commands.get? target
    let (state₂, render₂) ← command.execute script settings state₁ g.render
    let g' : GameState :=
      { history := { g.history with execution_count := count },
        state := state₂, render := render₂ }
    if command.isBreaking then pure (g', 1)
    else (runLoopN script settings fuel g').map (fun p => (p.1, p.2 + 1))

/-- `advance`, also returning the number of commands its run executed
(`0` when the call was short-circuited by an unfinished dialogue reveal). -/
def advanceN (script : Script) (settings : Settings) (fuel : Nat)
    (g : GameState) : Option (GameState × Nat) :=
  let g₁ := { g with render := { g.render with stage := g.render.stage.finish_animation } }
  match g₁.render.text with
  | some text =>
    if !text.text.is_finished then
      some ({ g₁ with render := { g₁.render with text := some { text with text := text.text.finish } } }, 0)
    else runLoopN script settings fuel g₁
  | none => runLoopN script settings fuel g₁

/-- A sequence of `k` advance calls, also returning the total number of
commands executed across them. -/
def advSeqN (script : Script) (settings : Settings) (fuel : Nat) :
    Nat → GameState → Option (GameState × Nat)
  | 0, g => some (g, 0)
  | k + 1, g => do
    let (g', n) ← advanceN script settings fuel g
    let (g'', m) ← advSeqN script settings fuel k g'
    pure (g'', n + m)

/-! ## Lexer token stream and scope counting -/

/-- The number of `ScopeOpen` tokens in a token stream. -/
def countScopeOpen (ts : List (Except ParserError Token)) : Nat :=
  ts.countP (fun t => match t with | .ok .scopeOpen => true | _ => false)

/-- The number of `ScopeClose` tokens in a token stream. -/
def countScopeClose (ts : List (Except ParserError Token)) : Nat :=
  ts.countP (fun t => match t with | .ok .scopeClose => true | _ => false)

/-- `1` when the lexer result is a `ScopeOpen` token. -/
def tokOpens : Option (Except ParserError Token) → Nat
  | some (.ok .scopeOpen) => 1
  | _ => 0

/-- `1` when the lexer result is a `ScopeClose` token. -/
def tokCloses : Option (Except ParserError Token) → Nat
  | some (.ok .scopeClose) => 1
  | _ => 0

/-! ## Replay-simulation invariants (`GameState::load` vs the live run) -/

/-- `true` exactly on the `Diverge` command. -/
def isDivergeCmd : Command → Bool
  | .diverge _ => true
  | _ => false

/-- When the command under the cursor is a `Diverge`, the dialogue text box is
fully revealed or absent.  This holds at every state the live UI can reach and
makes a pending `diverge` call advance through the run loop rather than
short-circuit. -/
def DivSafe (script : Script) (g : GameState) : Prop :=
  ∀ bs, script.commands.get? g.state.target = some (.diverge bs) →
    textFinishedOrNone g = true

/-- The state is reproduced exactly by the replay loop of `GameState::load`
run from the boot state up to its own execution count, consuming exactly its
own recorded divergences. -/
def Aligned (script : Script) (settings : Settings) (g : GameState) : Prop :=
  ∃ f, resume script settings f g.history.execution_count
    g.history.divergences boot = some (g, [])

/-- The simulation invariant carried along a live run: the state is either
exactly reproducible by the replay loop (and diverge-safe), or it is the
short-circuit successor of such a state — an `advance` consumed by finishing
a dialogue reveal, which the replay performs lazily on its next step. -/
def Tracked (script : Script) (settings : Settings) (g : GameState) : Prop :=
  (Aligned script settings g ∧ DivSafe script g) ∨
  (∃ g₀ c, Aligned script settings g₀ ∧
    script.commands.get? g₀.state.target = some c ∧ isDivergeCmd c = false ∧
    textFinishedOrNone g₀ = false ∧ advance script settings 0 g₀ = some g)

/-! ## Concrete scripts used as inputs to the theorems below -/

/-- Scenario A of the spec: a character line followed by a narrator line. -/
def scriptA : Script :=
  { characters := [],
    commands := [.dialogue (some "Alice") "Hello.", .dialogue none "Goodbye."],
    labels := [], images := [], audio := [],
    animations := AnimationMap.default }

/-- A script whose first run executes two commands (a non-breaking `stage`
then a breaking `dialogue`). -/
def scriptStageHi : Script :=
  { characters := [], commands := [.stage "bg", .dialogue none "Hi"],
    labels := [], images := [("bg", ⟨2, 2⟩)], audio := [],
    animations := AnimationMap.default }

/-- A script with one music track and one sound effect. -/
def scriptAudio : Script :=
  { characters := [], commands := [.music "m.ogg", .sound "s.ogg", .pause],
    labels := [], images := [], audio := ["m.ogg", "s.ogg"],
    animations := AnimationMap.default }

/-- A script that spawns a character, then kills it with a fade animation:
the kill leaves a pending animation with the to-be-killed flag set, swept
only by the next advance's `finish_animation`. -/
def scriptKillFade : Script :=
  { characters :=
      [("C", [("s", ⟨"c.png", some (0, 0), (1, 1)⟩)])],
    commands := [.spawn "C" "s" (0, 0) none none, .dialogue none "Hi",
      .kill "C" (some ⟨"fade", []⟩), .dialogue none "Bye"],
    labels := [], images := [("c.png", ⟨2, 2⟩)], audio := [],
    animations := AnimationMap.default }

/-- Scenario B of the spec: a divergence with two labelled branches. -/
def scriptB : Script :=
  { characters := [],
    commands := [.dialogue none "Choose.",
      .diverge [("Left", "l-left"), ("Right", "l-right")],
      .dialogue none "You went left.", .jump "end",
      .dialogue none "You went right.", .dialogue none "Done."],
    labels := [("l-left", 2), ("l-right", 4), ("end", 5)],
    images := [], audio := [], animations := AnimationMap.default }

/-- A neutral instance-parameter snapshot used by the glide theorems. -/
def param0 : InstanceParameter :=
  { centre_position := (0, 0), image := ⟨2, 2⟩, position := (0, 0),
    scale := (1, 1), visible := true, colour := ⟨1, 1, 1, 1⟩ }

/-- An instance carrying an in-flight animation and a set to-be-killed flag
(input of the C10 witness). -/
def oldInstC : Instance :=
  { animation := some (.glideMove ⟨(5, 5), 100⟩), character := "C",
    centre_position := (0, 0), image := ⟨2, 2⟩, position := (3, 3),
    scale := (1, 1), visible := false, colour := ⟨1, 1, 1, 1⟩, tbk := true }

/-- The instance freshly created by `Instance::new` on `scriptKillFade`
(output of the C10 witness). -/
def freshInstC : Instance :=
  { animation := none, character := "C", centre_position := (0, 0),
    image := ⟨2, 2⟩, position := (0, 0), scale := (1, 1), visible := true,
    colour := ⟨1, 1, 1, 1⟩, tbk := false }

/-!
# Lemmas and theorems
-/

@[simp] theorem byteLen_nil : byteLen [] = 0 := rfl

@[simp] theorem byteLen_cons (c : Char) (s : List Char) :
    byteLen (c :: s) = c.utf8Size + byteLen s := rfl

@[simp] theorem alGet_alInsert_self {β : Type} (k : String) (v : β)
    (l : List (String × β)) : alGet k (alInsert k v l) = some v := by
  induction l with
  | nil => simp [alGet, alInsert]
  | cons p rest ih =>
    cases p with
    | mk k₀ v₀ =>
      by_cases h : k₀ = k
      · simp [alInsert, alGet, h]
      · simp [alInsert, alGet, h, ih]

theorem alGet_alInsert_ne {β : Type} (k k' : String) (v : β)
    (l : List (String × β)) (h : k' ≠ k) :
    alGet k' (alInsert k v l) = alGet k' l := by
  have hk : ¬(k = k') := fun hh => h hh.symm
  induction l with
  | nil => simp [alGet, alInsert, hk]
  | cons p rest ih =>
    cases p with
    | mk k₀ v₀ =>
      by_cases hp : k₀ = k
      · subst hp
        simp [alInsert, alGet, hk]
      · simp [alInsert, alGet, hp, ih]

/-! ### Reveal-slice lemmas (C8, C9) -/

@[simp] theorem charsAfter_zero (s : List Char) : charsAfter s 0 = some s := by
  unfold charsAfter
  simp

theorem charsAfter_byteLen (s : List Char) : charsAfter s (byteLen s) = some [] := by
  induction s with
  | nil => simp [charsAfter]
  | cons c cs ih =>
    have hpos : 0 < c.utf8Size := Char.utf8Size_pos c
    unfold charsAfter
    have hne : c.utf8Size + byteLen cs ≠ 0 := by omega
    simp only [byteLen_cons, hne, if_false]
    have hle : c.utf8Size ≤ c.utf8Size + byteLen cs := by omega
    simp [hle, ih]

theorem charsAfter_add {s : List Char} {k : Nat} {c : Char} {cs : List Char}
    (h : charsAfter s k = some (c :: cs)) :
    charsAfter s (k + c.utf8Size) = some cs := by
  induction s generalizing k with
  | nil =>
    unfold charsAfter at h
    by_cases hk : k = 0 <;> simp [hk] at h
  | cons d ds ih =>
    by_cases hk : k = 0
    · subst hk
      rw [charsAfter, if_pos rfl] at h
      simp only [Option.some.injEq, List.cons.injEq] at h
      obtain ⟨hd, hds⟩ := h
      subst hds
      subst hd
      have hpos : 0 < d.utf8Size := Char.utf8Size_pos d
      rw [charsAfter, if_neg (by omega), if_pos (by omega)]
      simp
    · rw [charsAfter, if_neg hk] at h
      by_cases hle : d.utf8Size ≤ k
      · rw [if_pos hle] at h
        have hpos : 0 < d.utf8Size := Char.utf8Size_pos d
        have hcpos : 0 < c.utf8Size := Char.utf8Size_pos c
        rw [charsAfter, if_neg (by omega), if_pos (by omega)]
        have harith : k + c.utf8Size - d.utf8Size = k - d.utf8Size + c.utf8Size := by
          omega
        rw [harith]
        exact ih h
      · rw [if_neg hle] at h
        exact absurd h (by simp)

@[simp] theorem finish_is_finished (t : RenderText) :
    t.finish.is_finished = true := by
  simp [RenderText.finish, RenderText.is_finished]

theorem stepN_reaches_finished :
    ∀ (rem : List Char) (t : RenderText),
      charsAfter t.string t.stop = some rem →
      ∃ n t', RenderText.stepN n t = some t' ∧ t'.is_finished = true := by
  intro rem
  induction rem with
  | nil =>
    intro t h
    refine ⟨1, t.finish, ?_, finish_is_finished t⟩
    simp [RenderText.stepN, RenderText.step, h]
  | cons c rest ih =>
    intro t h
    match hr : rest with
    | [] =>
      refine ⟨1, t.finish, ?_, finish_is_finished t⟩
      simp [RenderText.stepN, RenderText.step, h]
    | d :: rest' =>
      have hstep : RenderText.step t = some { t with stop := t.stop + c.utf8Size } := by
        simp [RenderText.step, h]
      have hnext : charsAfter t.string (t.stop + c.utf8Size) = some (d :: rest') := by
        have := charsAfter_add h
        simpa [hr] using this
      obtain ⟨n, t', hN, hfin⟩ := ih { t with stop := t.stop + c.utf8Size } (by simpa using hnext)
      exact ⟨n + 1, t', by simp [RenderText.stepN, hstep, hN], hfin⟩

theorem step_of_finished {t : RenderText} (h : t.is_finished = true) :
    RenderText.step t = some t := by
  have hstop : t.stop = byteLen t.string := by
    simpa [RenderText.is_finished] using h
  have hca : charsAfter t.string t.stop = some [] := by
    rw [hstop]; exact charsAfter_byteLen t.string
  have hfin : t.finish = t := by
    unfold RenderText.finish
    cases t with
    | mk string start stop colour => simp_all
  simp [RenderText.step, hca, hfin]

/-- C8: for every `RenderText` whose reveal offset lies on a character
boundary (as every value built by `new`, `empty`, `step` and `finish` does —
Rust slicing would panic otherwise), iterating `step` reaches a state whose
`is_finished` holds, and once `is_finished` holds a further `step` returns
the value unchanged (it advances `end` only to the next character boundary
before that). -/
theorem step_terminates_idempotent_c8 (t : RenderText)
    (h : isBoundary t.string t.stop = true) :
    (∃ n t', RenderText.stepN n t = some t' ∧ t'.is_finished = true) ∧
      (t.is_finished = true → RenderText.step t = some t) := by
  constructor
  · obtain ⟨rem, hrem⟩ : ∃ rem, charsAfter t.string t.stop = some rem := by
      unfold isBoundary at h
      cases hca : charsAfter t.string t.stop with
      | none => rw [hca] at h; simp at h
      | some rem => exact ⟨rem, rfl⟩
    exact stepN_reaches_finished rem t hrem
  · exact step_of_finished

/-- Witness for C8 at a concrete two-character text. -/
theorem step_terminates_idempotent_c8_witness :
    isBoundary ('a' :: 'b' :: []) 0 = true ∧
      (∃ n t', RenderText.stepN n ⟨('a' :: 'b' :: []), 0, 0, ⟨0, 0, 0, 1⟩⟩ = some t' ∧
        t'.is_finished = true) := by
  refine ⟨by decide, ?_⟩
  exact (step_terminates_idempotent_c8 ⟨('a' :: 'b' :: []), 0, 0, ⟨0, 0, 0, 1⟩⟩
    (by decide)).1

theorem new_is_finished (s : List Char) (c : Colour) :
    (RenderText.new s c).is_finished = true := by
  simp [RenderText.new, RenderText.is_finished]

theorem divergeButtons_all_finished (settings : Settings) (px : ℚ) (size : ℚ × ℚ)
    (th : ℚ) : ∀ (bs : List (String × String)) (y : ℚ),
    ∀ b ∈ divergeButtons settings px size th bs y, b.1.text.text.is_finished = true := by
  intro bs
  induction bs with
  | nil => intro y b hb; simp [divergeButtons] at hb
  | cons br rest ih =>
    intro y b hb
    cases br with
    | mk string label =>
      simp only [divergeButtons, List.mem_cons] at hb
      rcases hb with hb | hb
      · subst hb
        exact new_is_finished _ _
      · exact ih _ b hb

/-- C9: `RenderText::new` starts with the reveal slice already covering the
whole string (`is_finished` immediately) while `RenderText::empty` starts at
offset 0; hence the character-name caption installed by a `Dialogue` command
is always fully displayed and never paced, every branch-button label built by
a `Diverge` command is fully displayed, and the dialogue body starts empty. -/
theorem new_full_empty_zero_c9 (s : List Char) (c : Colour) (settings : Settings)
    (n t : String) (r : Render) (bs : List (String × String)) :
    (RenderText.new s c).is_finished = true ∧
    (RenderText.empty s c).stop = 0 ∧
    ((executeDialogue settings (some n) t r).character.map
      (fun tb => tb.text.is_finished)) = some true ∧
    ((executeDialogue settings (some n) t r).text.map
      (fun tb => tb.text.stop)) = some 0 ∧
    (∀ b ∈ (executeDiverge settings bs r).branches,
      b.1.text.text.is_finished = true) := by
  refine ⟨new_is_finished s c, rfl, ?_, ?_, ?_⟩
  · simp [executeDialogue, new_is_finished, TextBox.new, TextBox.paddingWith]
  · simp [executeDialogue, RenderText.empty, TextBox.new, TextBox.paddingWith]
  · intro b hb
    exact divergeButtons_all_finished settings _ _ _ bs _ b hb

theorem instanceNew_fields {script : Script} {character state : String}
    {pos : ℚ × ℚ} {i : Instance}
    (h : Instance.new script character state pos = some i) :
    i.animation = none ∧ i.visible = true ∧ i.tbk = false ∧
      i.position = pos ∧ i.character = character := by
  unfold Instance.new at h
  cases hc : script.characters.index character state with
  | none => rw [hc] at h; simp at h
  | some st =>
    rw [hc] at h
    simp only [Option.bind_eq_bind, Option.some_bind] at h
    cases hi : alGet st.image script.images with
    | none => rw [hi] at h; simp at h
    | some img =>
      rw [hi] at h
      simp only [Option.bind_eq_bind, Option.some_bind, Option.pure_def,
        Option.some.injEq] at h
      subst h
      simp

/-- C10: spawning an instance under a name already present on the stage
replaces the previous instance wholesale: `Stage::spawn` is a `HashMap`
insert, so the old instance — its in-flight animation (whose `finish` is
never called) and its to-be-killed flag included — is discarded, every other
entry is untouched, and the fresh `Instance::new` value starts with no
animation, `visible = true` and `tbk = false`.  The `Spawn` command (here
with an explicit instance name and no spawn animation) performs exactly this
insert. -/
theorem spawn_replaces_c10 (script : Script) (settings : Settings)
    (st : ScriptState) (r : Render) (name character state : String)
    (pos : ℚ × ℚ) (old fresh : Instance)
    (_hold : alGet name r.stage = some old)
    (hnew : Instance.new script character state pos = some fresh) :
    alGet name (r.stage.spawn name fresh) = some fresh ∧
    (∀ k, k ≠ name → alGet k (r.stage.spawn name fresh) = alGet k r.stage) ∧
    fresh.animation = none ∧ fresh.visible = true ∧ fresh.tbk = false ∧
    Command.execute script settings (.spawn character state pos (some name) none)
      st r = some (st, { r with stage := r.stage.spawn name fresh }) := by
  obtain ⟨hanim, hvis, htbk, _, _⟩ := instanceNew_fields hnew
  refine ⟨alGet_alInsert_self name fresh r.stage,
    fun k hk => alGet_alInsert_ne name k fresh r.stage hk,
    hanim, hvis, htbk, ?_⟩
  simp [Command.execute, hnew, Option.bind]

/-- Witness for C10: a stage holding an animated, to-be-killed `"C"` whose
entry is replaced by a fresh spawn. -/
theorem spawn_replaces_c10_witness :
    alGet "C" (([("C", oldInstC)] : Stage)) = some oldInstC ∧
    oldInstC.animation.isSome = true ∧ oldInstC.tbk = true ∧
    alGet "C" (Stage.spawn ([("C", oldInstC)] : Stage) "C" freshInstC) =
      some freshInstC ∧
    freshInstC.animation = none ∧ freshInstC.visible = true ∧
    freshInstC.tbk = false := by
  have hnew : Instance.new scriptKillFade "C" "s" (0, 0) = some freshInstC := rfl
  have h := spawn_replaces_c10 scriptKillFade Settings.default
    ScriptState.default { Render.default with stage := ([("C", oldInstC)] : Stage) }
    "C" "C" "s" (0, 0) oldInstC freshInstC rfl hnew
  exact ⟨rfl, rfl, rfl, h.1, h.2.2.1, h.2.2.2.1, h.2.2.2.2.1⟩

/-! ### C3: the `Sound` command writes the music slot -/

/-- C3 (code bug): executing `Music "m.ogg"` then `Sound "s.ogg"` leaves
`state.music` holding the *sound-effect* voice (non-looping, at the
sound-effect volume) and `state.sounds` empty: the `Command::Sound` arm of
`src/lib.rs` (line 175) assigns its voice to `state.music` instead of pushing
it onto `state.sounds`, so a sound effect replaces the background music and
`sounds` — the field the engine's per-frame update garbage-collects — is
never populated. -/
theorem sound_overwrites_music_c3 :
    ∃ st₁ r₁, Command.execute scriptAudio Settings.default (.music "m.ogg")
        ScriptState.default Render.default = some (st₁, r₁) ∧
      st₁.music = some ⟨"m.ogg", 1, true⟩ ∧
      ∃ st₂ r₂, Command.execute scriptAudio Settings.default (.sound "s.ogg")
          st₁ r₁ = some (st₂, r₂) ∧
        st₂.music = some ⟨"s.ogg", 1, false⟩ ∧ st₂.sounds = [] := by
  refine ⟨{ ScriptState.default with music := some ⟨"m.ogg", 1, true⟩ },
    Render.default, by decide, rfl, ?_⟩
  exact ⟨{ ScriptState.default with music := some ⟨"s.ogg", 1, false⟩ },
    Render.default, by decide, rfl, rfl⟩

/-! ### C5: a narrator line does not clear the speaker caption -/

/-- C5 (code bug): in scenario A (`"Alice" "Hello."` then `"Goodbye."`),
after the second dialogue executes, the render state still carries the
`Alice` character-name box: the `Command::Dialogue` arm installs
`render.character` when a name is present but has no `else` branch clearing
it when the name is absent. -/
theorem narrator_keeps_speaker_c5 :
    (liveRun scriptA Settings.default 10 [.adv, .adv, .adv] boot).map
      (fun g => (g.render.character.map (fun tb => tb.text.string),
        g.render.text.map (fun tb => tb.text.string))) =
    some (some "Alice".toList, some "Goodbye.".toList) := by
  decide

/-! ### C6: the glide position animation's per-frame delta -/

/-- C6 (code bug): for `GlideMove` with `time_period = 2000` ms,
`position = (0, 0)` and `destination = (100, 0)`, an update with
`dt = 500` ms moves the x-position to `(100 - 0) / (2000 - 500) * 1000 =
200/3` — the source multiplies the per-millisecond velocity by the constant
`1_000.0` instead of by `dt`.  The claimed per-frame delta
`(destination - position) · (dt / time_left)` gives `100/3` (reading
`time_left` as the remaining period after subtracting `dt`) or `25` (reading
it as the period before), neither of which matches.  The duration default
(10 000 ms) and the `finish` postcondition (`position = destination`) do
hold. -/
theorem glide_delta_c6 :
    Glide.positionProducer ⟨(100, 0), []⟩ = .glideMove ⟨(100, 0), 10000⟩ ∧
    (GlideMove.update ⟨(100, 0), 2000⟩ param0 500).2.2.position = (200/3, 0) ∧
    (GlideMove.update ⟨(100, 0), 2000⟩ param0 500).1 = .Continue ∧
    (200/3 : ℚ) ≠ (100 - 0) * (500 / (2000 - 500)) ∧
    (200/3 : ℚ) ≠ (100 - 0) * (500 / 2000) ∧
    (Anim.finish (.glideMove ⟨(100, 0), 2000⟩) param0).position = (100, 0) := by
  refine ⟨rfl, ?_, ?_, by norm_num, by norm_num, rfl⟩
  · simp only [GlideMove.update, param0]
    norm_num
  · simp only [GlideMove.update, param0]
    norm_num

/-! ### C2: the lexer has no square-bracket or underscore rules -/

/-- C2 (code bug): lexing the command line
`position "C" (100,0) with glide[1000]` never produces `SquareOpen`,
`SquareClose` or `Underscore` tokens — `[1000` becomes an *identifier*
lexeme (and `]` another), because `Lexer::next` has no rule for `[`, `]` or
`_` even though the `Token` enum declares them and the parser's `animation`
function consumes them.  Consequently `parse` fails on this line with
`Expected(SquareOpen)` instead of producing the `Position` command with
`AnimationDeclaration { name: "glide", arguments: [Some(1000)] }`. -/
theorem lexer_missing_square_c2 :
    lexAll 200 (Lexer.new "position \"C\" (100,0) with glide[1000]\n".toList) =
      some [.ok (.identifier "position".toList), .ok (.string "C".toList),
        .ok .bracketOpen, .ok (.numeric 100), .ok .listSeparator,
        .ok (.numeric 0), .ok .bracketClose, .ok (.identifier "with".toList),
        .ok (.identifier "glide".toList), .ok (.identifier "[1000".toList),
        .ok (.identifier "]".toList), .ok .terminator] ∧
    parseScript 100 "position \"C\" (100,0) with glide[1000]\n" =
      some (.error [.expected .squareOpen]) := by
  constructor
  · have h : lexAll 200
        (Lexer.new "position \"C\" (100,0) with glide[1000]\n".toList) =
      some [.ok (.identifier "position".toList), .ok (.string "C".toList),
        .ok .bracketOpen, .ok (.numeric (digitsVal ['1', '0', '0'])),
        .ok .listSeparator, .ok (.numeric (digitsVal ['0'])),
        .ok .bracketClose, .ok (.identifier "with".toList),
        .ok (.identifier "glide".toList), .ok (.identifier "[1000".toList),
        .ok (.identifier "]".toList), .ok .terminator] := by rfl
    rw [h]
    have e1 : ('1'.toNat - '0'.toNat : ℕ) = 1 := rfl
    have e0 : ('0'.toNat - '0'.toNat : ℕ) = 0 := rfl
    simp only [digitsVal, List.foldl, e1, e0]
    norm_num
  · rfl

/-! ### C4: what `execution_count` counts -/

theorem runLoopN_counts (script : Script) (settings : Settings) :
    ∀ (fuel : Nat) (g g' : GameState) (n : Nat),
      runLoopN script settings fuel g = some (g', n) →
      g'.history.execution_count = g.history.execution_count + n ∧ 1 ≤ n := by
  intro fuel
  induction fuel with
  | zero => intro g g' n h; simp [runLoopN] at h
  | succ fuel ih =>
    intro g g' n h
    rw [runLoopN] at h
    cases hc : script.commands.get? (g.state.next_target.getD (g.state.target + 1)) with
    | none => rw [hc] at h; simp at h
    | some command =>
      rw [hc] at h
      simp only [Option.bind_eq_bind, Option.some_bind] at h
      obtain ⟨p, hp, h⟩ := Option.bind_eq_some.mp h
      by_cases hb : command.isBreaking
      · rw [if_pos hb] at h
        simp only [Option.pure_def, Option.some.injEq] at h
        cases h
        simp
      · rw [if_neg hb] at h
        obtain ⟨⟨g₁, n₁⟩, hrec, hpair⟩ := Option.map_eq_some'.mp h
        obtain ⟨hcount, hone⟩ := ih _ _ _ hrec
        simp only [Prod.mk.injEq] at hpair
        obtain ⟨hg, hn⟩ := hpair
        subst hg
        subst hn
        constructor
        · simp only at hcount ⊢
          omega
        · omega

theorem runLoopN_fst (script : Script) (settings : Settings) :
    ∀ (fuel : Nat) (g : GameState),
      (runLoopN script settings fuel g).map Prod.fst =
        runLoop script settings fuel g := by
  intro fuel
  induction fuel with
  | zero => intro g; simp [runLoopN, runLoop]
  | succ fuel ih =>
    intro g
    rw [runLoopN, runLoop]
    cases hc : script.commands.get? (g.state.next_target.getD (g.state.target + 1)) with
    | none => simp
    | some command =>
      simp only [Option.bind_eq_bind, Option.some_bind]
      cases he : Command.execute script settings command { target := g.state.next_target.getD (g.state.target + 1), next_target := none, flags := g.state.flags, music := g.state.music, sounds := g.state.sounds } g.render with
      | none => simp
      | some p =>
        simp only [Option.some_bind]
        by_cases hb : command.isBreaking
        · simp [hb]
        · simp only [hb, if_false]
          rw [← ih]
          cases runLoopN script settings fuel { history := { execution_count := g.history.execution_count + 1, divergences := g.history.divergences }, state := p.1, render := p.2 } with
          | none => simp
          | some q => simp

theorem advanceN_fst (script : Script) (settings : Settings) (fuel : Nat)
    (g : GameState) :
    (advanceN script settings fuel g).map Prod.fst =
      advance script settings fuel g := by
  rw [advanceN, advance]
  cases ht : ({ g with render := { g.render with
      stage := g.render.stage.finish_animation } } : GameState).render.text with
  | none => simpa using runLoopN_fst script settings fuel _
  | some text =>
    by_cases hf : text.text.is_finished
    · simpa [hf] using runLoopN_fst script settings fuel _
    · simp [hf]

theorem advanceN_counts (script : Script) (settings : Settings) (fuel : Nat)
    (g g' : GameState) (n : Nat)
    (h : advanceN script settings fuel g = some (g', n)) :
    g'.history.execution_count = g.history.execution_count + n ∧
      (textFinishedOrNone g = false → n = 0) ∧
      (textFinishedOrNone g = true → 1 ≤ n) := by
  rw [advanceN] at h
  cases ht : g.render.text with
  | none =>
    simp only [ht] at h
    obtain ⟨hc, hn⟩ := runLoopN_counts script settings fuel _ _ _ h
    refine ⟨by simpa using hc, ?_, fun _ => hn⟩
    intro hfalse
    simp [textFinishedOrNone, ht] at hfalse
  | some text =>
    simp only [ht] at h
    by_cases hf : text.text.is_finished
    · rw [if_neg (by simp [hf])] at h
      obtain ⟨hc, hn⟩ := runLoopN_counts script settings fuel _ _ _ h
      refine ⟨by simpa using hc, ?_, fun _ => hn⟩
      intro hfalse
      simp [textFinishedOrNone, ht, hf] at hfalse
    · rw [if_pos (by simp [hf])] at h
      simp only [Option.some.injEq, Prod.mk.injEq] at h
      obtain ⟨hg, hn⟩ := h
      subst hg
      subst hn
      refine ⟨by simp, fun _ => rfl, ?_⟩
      intro htrue
      simp [textFinishedOrNone, ht, hf] at htrue

theorem advSeqN_counts (script : Script) (settings : Settings) (fuel : Nat) :
    ∀ (k : Nat) (g g' : GameState) (total : Nat),
      advSeqN script settings fuel k g = some (g', total) →
      g'.history.execution_count = g.history.execution_count + total := by
  intro k
  induction k with
  | zero =>
    intro g g' total h
    simp only [advSeqN, Option.some.injEq] at h
    cases h
    simp
  | succ k ih =>
    intro g g' total h
    rw [advSeqN] at h
    cases ha : advanceN script settings fuel g with
    | none => rw [ha] at h; simp at h
    | some p =>
      obtain ⟨g₁, n₁⟩ := p
      rw [ha] at h
      simp only [Option.bind_eq_bind, Option.some_bind] at h
      cases hs : advSeqN script settings fuel k g₁ with
      | none => rw [hs] at h; simp at h
      | some q =>
        obtain ⟨g₂, n₂⟩ := q
        rw [hs] at h
        simp only [Option.some_bind, Option.pure_def, Option.some.injEq,
          Prod.mk.injEq] at h
        obtain ⟨hg, hn⟩ := h
        subst hg
        subst hn
        have h1 := (advanceN_counts script settings fuel g g₁ n₁ ha).1
        have h2 := ih g₁ g₂ n₂ hs
        omega

/-- C4 (corrected): after any sequence of `advance` calls from the boot
state, `execution_count` equals the total number of run-loop *iterations*
(one per executed command) across those calls — not the number of calls that
reached the run loop: a short-circuited call contributes zero iterations and
a call that reaches the run loop contributes at least one, but possibly more
(one per non-breaking command it runs through).  The instrumented
`advanceN`/`advSeqN` agree with `advance` on the resulting state
(`advanceN_fst`). -/
theorem execCount_totals_c4 (script : Script) (settings : Settings)
    (fuel k : Nat) (g : GameState) (total : Nat)
    (h : advSeqN script settings fuel k boot = some (g, total)) :
    g.history.execution_count = total ∧
    (∀ g₀, (advanceN script settings fuel g₀).map Prod.fst =
      advance script settings fuel g₀) ∧
    (∀ g₀ g₁ n, advanceN script settings fuel g₀ = some (g₁, n) →
      (textFinishedOrNone g₀ = false → n = 0) ∧
      (textFinishedOrNone g₀ = true → 1 ≤ n)) := by
  refine ⟨?_, fun g₀ => advanceN_fst script settings fuel g₀, ?_⟩
  · have := advSeqN_counts script settings fuel k boot g total h
    simpa [boot, History.default] using this
  · intro g₀ g₁ n hn
    exact (advanceN_counts script settings fuel g₀ g₁ n hn).2

/-- Witness for C4 (corrected) at a concrete one-call sequence. -/
theorem execCount_totals_c4_witness :
    ∃ g total, advSeqN scriptStageHi Settings.default 10 1 boot = some (g, total) ∧
      g.history.execution_count = total := by
  refine ⟨_, _, rfl, ?_⟩
  exact (execCount_totals_c4 scriptStageHi Settings.default 10 1 _ _ rfl).1

/-- C4 (counterexample to the claim as stated): on a script starting with a
non-breaking `stage` command followed by a `dialogue`, a single advance call
from boot — which reaches the run loop, since boot has no dialogue text —
leaves `execution_count = 2`, not `1`: the count is incremented once per
run-loop iteration, not once per advance call. -/
theorem execCount_not_calls_c4 :
    textFinishedOrNone boot = true ∧
    (advance scriptStageHi Settings.default 10 boot).map
      (fun g => g.history.execution_count) = some 2 ∧
    (2 : Nat) ≠ 1 := by
  exact ⟨rfl, rfl, by decide⟩

/-! ### C7: scope balance of the lexer -/

theorem lexString_length_le : ∀ (s : List Char), (lexString s).2.length ≤ s.length := by
  have key : ∀ (n : Nat) (s : List Char), s.length ≤ n →
      (lexString s).2.length ≤ s.length := by
    intro n
    induction n with
    | zero =>
      intro s hs
      have : s = [] := List.eq_nil_of_length_eq_zero (Nat.le_zero.mp hs)
      subst this
      simp [lexString]
    | succ n ih =>
      intro s hs
      rw [lexString.eq_def]
      split
      · simp
      · simp
      · simp
      · simp
      · rename_i c rest
        have hr := ih rest (by simp at hs; omega)
        cases hls : lexString rest with
        | mk os rem =>
          rw [hls] at hr
          cases os <;> simp_all <;> omega
      · rename_i c rest h1 h2 h3 h4
        have hr := ih rest (by simp at hs; omega)
        cases hls : lexString rest with
        | mk os rem =>
          rw [hls] at hr
          cases os <;> simp_all <;> omega
  exact fun s => key s.length s (Nat.le_refl _)

theorem mu_lt_of {st st' : Lexer} (hind : st'.indentation = st.indentation)
    (htgt : st'.targetIndent = st.targetIndent)
    (hch : st'.chars.length < st.chars.length)
    (hnl : st.newLine = false) : mu st' < mu st := by
  have hne : st.chars ≠ [] := by
    intro hc
    rw [hc] at hch
    simp at hch
  simp only [mu, hind, htgt, hnl, if_false, hne, false_and, and_false]
  have h1 : (if st'.newLine then 2 else 0) ≤ 2 := by split <;> omega
  have h2 : (if st'.chars = [] ∧ st.targetIndent ≠ 0 then 1 else 0) ≤ 1 := by
    split <;> omega
  omega

theorem mu_scanLine {st : Lexer} (hnl : st.newLine = true)
    (heq : st.indentation = st.targetIndent) : mu (scanLine st) < mu st := by
  have hsplit : (st.chars.takeWhile (· == '\t')).length +
      (st.chars.dropWhile (· == '\t')).length = st.chars.length := by
    rw [← List.length_append, List.takeWhile_append_dropWhile]
  rw [scanLine]
  cases hh : (st.chars.dropWhile (· == '\t')).head? with
  | none =>
    have hdrop : st.chars.dropWhile (· == '\t') = [] := by
      cases hd : st.chars.dropWhile (· == '\t') with
      | nil => rfl
      | cons a as => rw [hd] at hh; simp at hh
    rw [hdrop, List.length_nil] at hsplit
    by_cases hc : st.chars = []
    · simp only [mu, hh, hdrop, hnl, if_true, hc, List.dropWhile_nil,
        List.length_nil, heq, Bool.false_eq_true, if_false]
      split_ifs <;> omega
    · have hpos : 0 < st.chars.length := List.length_pos.mpr hc
      simp only [mu, hh, hdrop, hnl, if_true, hc, heq, false_and, if_false,
        Bool.false_eq_true, List.length_nil]
      split_ifs <;> omega
  | some c =>
    have hdropne : st.chars.dropWhile (· == '\t') ≠ [] := by
      intro hd
      rw [hd] at hh
      simp at hh
    have hchne : st.chars ≠ [] := by
      intro hc
      apply hdropne
      rw [hc]
      rfl
    have hcpos : 0 < st.chars.length := List.length_pos.mpr hchne
    have hdpos : 0 < (st.chars.dropWhile (· == '\t')).length :=
      List.length_pos.mpr hdropne
    by_cases hcn : c = '\n'
    · subst hcn
      simp only [mu, hh, hnl, if_true, hchne, hdropne, false_and, and_false,
        if_false, heq, Bool.false_eq_true]
      omega
    · have hmatch : (match (some c : Option Char) with
          | none => st.targetIndent
          | some '\n' => st.targetIndent
          | some _ => (st.chars.takeWhile (· == '\t')).length) =
          (st.chars.takeWhile (· == '\t')).length := by
        split
        · simp_all
        · simp_all
        · rfl
      simp only [mu, hh, hmatch, hnl, if_true, hchne, hdropne, false_and,
        and_false, if_false, heq, Bool.false_eq_true]
      omega

theorem lexNext_delta : ∀ (fuel : Nat) (st : Lexer) (r : Option (Except ParserError Token))
    (st' : Lexer), lexNext fuel st = some (r, st') →
    st'.indentation + tokCloses r = st.indentation + tokOpens r ∧
      (r = none → st.indentation = 0) := by
  intro fuel
  induction fuel with
  | zero => intro st r st' h; simp [lexNext] at h
  | succ fuel ih =>
    intro st r st' h
    rw [lexNext] at h
    cases hcmp : compare st.indentation st.targetIndent with
    | lt =>
      rw [hcmp] at h
      simp only [Option.some.injEq, Prod.mk.injEq] at h
      obtain ⟨hr, hs⟩ := h
      subst hr
      subst hs
      exact ⟨rfl, by simp⟩
    | gt =>
      rw [hcmp] at h
      have hgt := Nat.compare_eq_gt.mp hcmp
      simp only [Option.some.injEq, Prod.mk.injEq] at h
      obtain ⟨hr, hs⟩ := h
      subst hr
      subst hs
      refine ⟨?_, by simp⟩
      show st.indentation - 1 + 1 = st.indentation + 0
      omega
    | eq =>
      rw [hcmp] at h
      have heq := Nat.compare_eq_eq.mp hcmp
      by_cases hnl : st.newLine
      · rw [if_pos hnl] at h
        have hd := ih (scanLine st) r st' h
        have hsl : (scanLine st).indentation = st.indentation := rfl
        rw [hsl] at hd
        exact hd
      · rw [if_neg hnl] at h
        cases hch : st.chars with
        | nil =>
          simp only [hch] at h
          by_cases htz : st.targetIndent = 0
          · rw [if_pos htz] at h
            simp only [Option.some.injEq, Prod.mk.injEq] at h
            obtain ⟨hr, hs⟩ := h
            subst hr
            subst hs
            exact ⟨rfl, fun _ => heq.trans htz⟩
          · rw [if_neg htz] at h
            exact ih { chars := [], indentation := st.indentation, targetIndent := 0, newLine := st.newLine } r st' h
        | cons c rest =>
          simp only [hch] at h
          by_cases h1 : c = '('
          · simp only [h1, if_true, if_pos, Option.some.injEq, Prod.mk.injEq] at h
            obtain ⟨hr, hs⟩ := h
            subst hr
            subst hs
            exact ⟨rfl, by simp⟩
          · rw [if_neg h1] at h
            by_cases h2 : c = ')'
            · simp only [h2, if_true, Option.some.injEq, Prod.mk.injEq] at h
              obtain ⟨hr, hs⟩ := h
              subst hr
              subst hs
              exact ⟨rfl, by simp⟩
            · rw [if_neg h2] at h
              by_cases h3 : c = ','
              · simp only [h3, if_true, Option.some.injEq, Prod.mk.injEq] at h
                obtain ⟨hr, hs⟩ := h
                subst hr
                subst hs
                exact ⟨rfl, by simp⟩
              · rw [if_neg h3] at h
                by_cases h4 : c = '\n'
                · simp only [h4, if_true, Option.some.injEq, Prod.mk.injEq] at h
                  obtain ⟨hr, hs⟩ := h
                  subst hr
                  subst hs
                  exact ⟨rfl, by simp⟩
                · rw [if_neg h4] at h
                  by_cases h5 : c = '"'
                  · rw [if_pos h5] at h
                    cases hls : lexString rest with
                    | mk os rem =>
                      rw [hls] at h
                      cases os with
                      | some str =>
                        simp only [Option.some.injEq, Prod.mk.injEq] at h
                        obtain ⟨hr, hs⟩ := h
                        subst hr
                        subst hs
                        exact ⟨rfl, by simp⟩
                      | none =>
                        simp only [Option.some.injEq, Prod.mk.injEq] at h
                        obtain ⟨hr, hs⟩ := h
                        subst hr
                        subst hs
                        exact ⟨rfl, by simp⟩
                  · rw [if_neg h5] at h
                    by_cases h6 : isWhitespace c
                    · rw [if_pos h6] at h
                      exact ih { chars := rest, indentation := st.indentation, targetIndent := st.targetIndent, newLine := st.newLine } r st' h
                    · rw [if_neg h6] at h
                      by_cases h7 : c = '-' ∨ c.isDigit
                      · rw [if_pos h7] at h
                        cases hn : parseNumeric (c :: rest.takeWhile wordContinues) with
                        | some q =>
                          rw [hn] at h
                          simp only [Option.some.injEq, Prod.mk.injEq] at h
                          obtain ⟨hr, hs⟩ := h
                          subst hr
                          subst hs
                          exact ⟨rfl, by simp⟩
                        | none =>
                          rw [hn] at h
                          simp only [Option.some.injEq, Prod.mk.injEq] at h
                          obtain ⟨hr, hs⟩ := h
                          subst hr
                          subst hs
                          exact ⟨rfl, by simp⟩
                      · rw [if_neg h7] at h
                        simp only [Option.some.injEq, Prod.mk.injEq] at h
                        obtain ⟨hr, hs⟩ := h
                        subst hr
                        subst hs
                        exact ⟨rfl, by simp⟩

theorem bool_false_of_not_true {b : Bool} (h : ¬b = true) : b = false := by
  cases b
  · rfl
  · exact absurd rfl h

theorem lexNext_total : ∀ (fuel : Nat) (st : Lexer), mu st < fuel →
    ∃ r st', lexNext fuel st = some (r, st') ∧
      (∀ t, r = some t → mu st' < mu st) := by
  intro fuel
  induction fuel with
  | zero => intro st hmu; omega
  | succ fuel ih =>
    intro st hmu
    rw [lexNext]
    cases hcmp : compare st.indentation st.targetIndent with
    | lt =>
      simp only [hcmp]
      have hlt := Nat.compare_eq_lt.mp hcmp
      refine ⟨_, _, rfl, fun t ht => ?_⟩
      simp only [mu]
      split_ifs <;> omega
    | gt =>
      simp only [hcmp]
      have hgt := Nat.compare_eq_gt.mp hcmp
      refine ⟨_, _, rfl, fun t ht => ?_⟩
      simp only [mu]
      split_ifs <;> omega
    | eq =>
      simp only [hcmp]
      have heq := Nat.compare_eq_eq.mp hcmp
      by_cases hnl : st.newLine
      · rw [if_pos hnl]
        have hscan : mu (scanLine st) < mu st := mu_scanLine hnl heq
        obtain ⟨r, st', hnext, hmu'⟩ := ih (scanLine st) (by omega)
        exact ⟨r, st', hnext, fun t ht => lt_trans (hmu' t ht) hscan⟩
      · rw [if_neg hnl]
        have hnl' : st.newLine = false := bool_false_of_not_true hnl
        cases hch : st.chars with
        | nil =>
          simp only [hch]
          by_cases htz : st.targetIndent = 0
          · rw [if_pos htz]
            exact ⟨none, st, rfl, fun t ht => nomatch ht⟩
          · rw [if_neg htz]
            have hmid : mu { chars := ([] : List Char), indentation := st.indentation, targetIndent := 0, newLine := st.newLine } < mu st := by
              simp only [mu, hch, hnl', heq]
              split_ifs <;> simp_all
            obtain ⟨r, st', hnext, hmu'⟩ := ih { chars := ([] : List Char), indentation := st.indentation, targetIndent := 0, newLine := st.newLine } (by omega)
            exact ⟨r, st', hnext, fun t ht => lt_trans (hmu' t ht) hmid⟩
        | cons c rest =>
          simp only [hch]
          have hlen : rest.length < st.chars.length := by rw [hch]; simp
          by_cases h1 : c = '('
          · rw [if_pos h1]
            exact ⟨_, _, rfl, fun t ht => mu_lt_of rfl rfl hlen hnl'⟩
          · rw [if_neg h1]
            by_cases h2 : c = ')'
            · rw [if_pos h2]
              exact ⟨_, _, rfl, fun t ht => mu_lt_of rfl rfl hlen hnl'⟩
            · rw [if_neg h2]
              by_cases h3 : c = ','
              · rw [if_pos h3]
                exact ⟨_, _, rfl, fun t ht => mu_lt_of rfl rfl hlen hnl'⟩
              · rw [if_neg h3]
                by_cases h4 : c = '\n'
                · rw [if_pos h4]
                  exact ⟨_, _, rfl, fun t ht => mu_lt_of rfl rfl hlen hnl'⟩
                · rw [if_neg h4]
                  by_cases h5 : c = '"'
                  · rw [if_pos h5]
                    cases hls : lexString rest with
                    | mk os rem =>
                      have hrem : rem.length < st.chars.length := by
                        have := lexString_length_le rest
                        rw [hls] at this
                        simp only at this
                        omega
                      cases os with
                      | some str =>
                        exact ⟨_, _, rfl, fun t ht => mu_lt_of rfl rfl hrem hnl'⟩
                      | none =>
                        exact ⟨_, _, rfl, fun t ht => mu_lt_of rfl rfl hrem hnl'⟩
                  · rw [if_neg h5]
                    by_cases h6 : isWhitespace c
                    · rw [if_pos h6]
                      have hmid : mu { chars := rest, indentation := st.indentation, targetIndent := st.targetIndent, newLine := st.newLine } < mu st := by
                        refine mu_lt_of rfl rfl ?_ hnl'
                        simpa using hlen
                      obtain ⟨r, st', hnext, hmu'⟩ := ih { chars := rest, indentation := st.indentation, targetIndent := st.targetIndent, newLine := st.newLine } (by omega)
                      exact ⟨r, st', hnext, fun t ht => lt_trans (hmu' t ht) hmid⟩
                    · rw [if_neg h6]
                      have hdw : (rest.dropWhile wordContinues).length < st.chars.length := by
                        have := (List.dropWhile_sublist (p := wordContinues) (l := rest)).length_le
                        omega
                      by_cases h7 : c = '-' ∨ c.isDigit
                      · rw [if_pos h7]
                        cases hn : parseNumeric (c :: rest.takeWhile wordContinues) with
                        | some q =>
                          exact ⟨_, _, rfl, fun t ht => mu_lt_of rfl rfl hdw hnl'⟩
                        | none =>
                          exact ⟨_, _, rfl, fun t ht => mu_lt_of rfl rfl hdw hnl'⟩
                      · rw [if_neg h7]
                        exact ⟨_, _, rfl, fun t ht => mu_lt_of rfl rfl hdw hnl'⟩

theorem lexAll_total : ∀ (fuel : Nat) (st : Lexer), mu st < fuel →
    ∃ ts, lexAll fuel st = some ts := by
  intro fuel
  induction fuel with
  | zero => intro st hmu; omega
  | succ fuel ih =>
    intro st hmu
    obtain ⟨r, st', hnext, hmu'⟩ := lexNext_total (fuel + 1) st hmu
    rw [lexAll, hnext]
    cases r with
    | none => exact ⟨[], rfl⟩
    | some t =>
      obtain ⟨ts, hts⟩ := ih st' (by have := hmu' t rfl; omega)
      refine ⟨t :: ts, ?_⟩
      show Option.map (fun x => t :: x) (lexAll fuel st') = some (t :: ts)
      rw [hts]
      rfl

theorem lexAll_balance : ∀ (fuel : Nat) (st : Lexer) (ts : List (Except ParserError Token)),
    lexAll fuel st = some ts →
    countScopeOpen ts + st.indentation = countScopeClose ts := by
  intro fuel
  induction fuel with
  | zero => intro st ts h; simp [lexAll] at h
  | succ fuel ih =>
    intro st ts h
    rw [lexAll] at h
    cases hnext : lexNext (fuel + 1) st with
    | none => rw [hnext] at h; simp at h
    | some p =>
      obtain ⟨r, st'⟩ := p
      rw [hnext] at h
      obtain ⟨hdelta, hend⟩ := lexNext_delta (fuel + 1) st r st' hnext
      cases r with
      | none =>
        simp only [Option.some.injEq] at h
        subst h
        simp [countScopeOpen, countScopeClose, hend rfl]
      | some t =>
        simp only [Option.map_eq_some'] at h
        obtain ⟨ts', hrec, hts⟩ := h
        subst hts
        have hih := ih st' ts' hrec
        have hopen : countScopeOpen (t :: ts') = tokOpens (some t) + countScopeOpen ts' := by
          rcases t with e | tok
          · simp [countScopeOpen, List.countP_cons, tokOpens]
          · cases tok <;> simp [countScopeOpen, List.countP_cons, tokOpens, Nat.add_comm]
        have hclose : countScopeClose (t :: ts') = tokCloses (some t) + countScopeClose ts' := by
          rcases t with e | tok
          · simp [countScopeClose, List.countP_cons, tokCloses]
          · cases tok <;> simp [countScopeClose, List.countP_cons, tokCloses, Nat.add_comm]
        rw [hopen, hclose]
        omega

/-- C7: for every input string, the lexer terminates (given fuel one more than
its measure) and produces a token stream in which the number of `ScopeOpen`
tokens equals the number of `ScopeClose` tokens. -/
theorem lexer_scopes_balanced_c7 (s : List Char) :
    ∃ ts, lexAll (mu (Lexer.new s) + 1) (Lexer.new s) = some ts ∧
      countScopeOpen ts = countScopeClose ts := by
  obtain ⟨ts, hts⟩ := lexAll_total (mu (Lexer.new s) + 1) (Lexer.new s) (by omega)
  refine ⟨ts, hts, ?_⟩
  have hb := lexAll_balance (mu (Lexer.new s) + 1) (Lexer.new s) ts hts
  have hind : (Lexer.new s).indentation = 0 := rfl
  omega

/-! ### C1: replay equivalence of `GameState::load` -/

/-- A command whose `execute` succeeds leaves `state.target` unchanged
(every arm of `Command::execute` copies the incoming cursor). -/
theorem execute_target (script : Script) (settings : Settings) : ∀ (c : Command)
    (s : ScriptState) (r : Render) (s' : ScriptState) (r' : Render),
    c.execute script settings s r = some (s', r') → s'.target = s.target := by
  intro c s r s' r' h
  have close : ∀ (A : ScriptState) (B : Render), some (A, B) = some (s', r') →
      A.target = s.target → s'.target = s.target := by
    intro A B hh hA
    injection hh with hh
    injection hh with h1 h2
    subst h1
    exact hA
  cases c with
  | change instName stateName anim =>
    simp only [Command.execute, Option.pure_def] at h
    obtain ⟨inst, -, h⟩ := Option.bind_eq_some.mp h
    split at h
    · obtain ⟨ca, -, h⟩ := Option.bind_eq_some.mp h
      obtain ⟨p, -, h⟩ := Option.bind_eq_some.mp h
      exact close _ _ h rfl
    · obtain ⟨fresh, -, h⟩ := Option.bind_eq_some.mp h
      exact close _ _ h rfl
  | dialogue character text =>
    simp only [Command.execute, Option.pure_def] at h
    exact close _ _ h rfl
  | diverge branches =>
    simp only [Command.execute, Option.pure_def] at h
    exact close _ _ h rfl
  | showCmd instName anim =>
    simp only [Command.execute, Option.pure_def] at h
    obtain ⟨inst, -, h⟩ := Option.bind_eq_some.mp h
    split at h
    · obtain ⟨p, -, h⟩ := Option.bind_eq_some.mp h
      exact close _ _ h rfl
    · exact close _ _ h rfl
  | hide instName anim =>
    simp only [Command.execute, Option.pure_def] at h
    obtain ⟨inst, -, h⟩ := Option.bind_eq_some.mp h
    split at h
    · obtain ⟨p, -, h⟩ := Option.bind_eq_some.mp h
      exact close _ _ h rfl
    · exact close _ _ h rfl
  | position instName pos anim =>
    simp only [Command.execute, Option.pure_def] at h
    obtain ⟨inst, -, h⟩ := Option.bind_eq_some.mp h
    split at h
    · obtain ⟨p, -, h⟩ := Option.bind_eq_some.mp h
      exact close _ _ h rfl
    · exact close _ _ h rfl
  | kill instName anim =>
    simp only [Command.execute, Option.pure_def] at h
    split at h
    · obtain ⟨inst, -, h⟩ := Option.bind_eq_some.mp h
      obtain ⟨p, -, h⟩ := Option.bind_eq_some.mp h
      exact close _ _ h rfl
    · exact close _ _ h rfl
  | spawn character stateName pos instName anim =>
    simp only [Command.execute, Option.pure_def] at h
    obtain ⟨inst, -, h⟩ := Option.bind_eq_some.mp h
    split at h
    · obtain ⟨p, -, h⟩ := Option.bind_eq_some.mp h
      obtain ⟨placed, -, h⟩ := Option.bind_eq_some.mp h
      exact close _ _ h rfl
    · exact close _ _ h rfl
  | stage path =>
    simp only [Command.execute, Option.pure_def] at h
    obtain ⟨image, -, h⟩ := Option.bind_eq_some.mp h
    exact close _ _ h rfl
  | jump label =>
    simp only [Command.execute, Option.pure_def] at h
    obtain ⟨target, -, h⟩ := Option.bind_eq_some.mp h
    exact close _ _ h rfl
  | music path =>
    simp only [Command.execute, Option.pure_def] at h
    split at h
    · exact close _ _ h rfl
    · exact Option.noConfusion h
  | sound path =>
    simp only [Command.execute, Option.pure_def] at h
    split at h
    · exact close _ _ h rfl
    · exact Option.noConfusion h
  | ifCmd flagName label =>
    simp only [Command.execute, Option.pure_def] at h
    split at h
    · obtain ⟨target, -, h⟩ := Option.bind_eq_some.mp h
      exact close _ _ h rfl
    · exact close _ _ h rfl
  | flag flagName =>
    simp only [Command.execute, Option.pure_def] at h
    exact close _ _ h rfl
  | unflag flagName =>
    simp only [Command.execute, Option.pure_def] at h
    exact close _ _ h rfl
  | pause =>
    simp only [Command.execute, Option.pure_def] at h
    exact close _ _ h rfl

/-- A successful `execute` of any command other than `Dialogue` leaves the
dialogue text box untouched (`render.text`): the other arms write only the
stage, background, branches, audio and cursor fields. -/
theorem execute_text (script : Script) (settings : Settings) : ∀ (c : Command)
    (s : ScriptState) (r : Render) (s' : ScriptState) (r' : Render),
    (∀ ch str, c ≠ .dialogue ch str) →
    c.execute script settings s r = some (s', r') → r'.text = r.text := by
  intro c s r s' r' hne h
  have close : ∀ (A : ScriptState) (B : Render), some (A, B) = some (s', r') →
      B.text = r.text → r'.text = r.text := by
    intro A B hh hB
    injection hh with hh
    injection hh with h1 h2
    subst h2
    exact hB
  cases c with
  | change instName stateName anim =>
    simp only [Command.execute, Option.pure_def] at h
    obtain ⟨inst, -, h⟩ := Option.bind_eq_some.mp h
    split at h
    · obtain ⟨ca, -, h⟩ := Option.bind_eq_some.mp h
      obtain ⟨p, -, h⟩ := Option.bind_eq_some.mp h
      exact close _ _ h rfl
    · obtain ⟨fresh, -, h⟩ := Option.bind_eq_some.mp h
      exact close _ _ h rfl
  | dialogue character text =>
    exact absurd rfl (hne character text)
  | diverge branches =>
    simp only [Command.execute, Option.pure_def] at h
    exact close _ _ h rfl
  | showCmd instName anim =>
    simp only [Command.execute, Option.pure_def] at h
    obtain ⟨inst, -, h⟩ := Option.bind_eq_some.mp h
    split at h
    · obtain ⟨p, -, h⟩ := Option.bind_eq_some.mp h
      exact close _ _ h rfl
    · exact close _ _ h rfl
  | hide instName anim =>
    simp only [Command.execute, Option.pure_def] at h
    obtain ⟨inst, -, h⟩ := Option.bind_eq_some.mp h
    split at h
    · obtain ⟨p, -, h⟩ := Option.bind_eq_some.mp h
      exact close _ _ h rfl
    · exact close _ _ h rfl
  | position instName pos anim =>
    simp only [Command.execute, Option.pure_def] at h
    obtain ⟨inst, -, h⟩ := Option.bind_eq_some.mp h
    split at h
    · obtain ⟨p, -, h⟩ := Option.bind_eq_some.mp h
      exact close _ _ h rfl
    · exact close _ _ h rfl
  | kill instName anim =>
    simp only [Command.execute, Option.pure_def] at h
    split at h
    · obtain ⟨inst, -, h⟩ := Option.bind_eq_some.mp h
      obtain ⟨p, -, h⟩ := Option.bind_eq_some.mp h
      exact close _ _ h rfl
    · exact close _ _ h rfl
  | spawn character stateName pos instName anim =>
    simp only [Command.execute, Option.pure_def] at h
    obtain ⟨inst, -, h⟩ := Option.bind_eq_some.mp h
    split at h
    · obtain ⟨p, -, h⟩ := Option.bind_eq_some.mp h
      obtain ⟨placed, -, h⟩ := Option.bind_eq_some.mp h
      exact close _ _ h rfl
    · exact close _ _ h rfl
  | stage path =>
    simp only [Command.execute, Option.pure_def] at h
    obtain ⟨image, -, h⟩ := Option.bind_eq_some.mp h
    exact close _ _ h rfl
  | jump label =>
    simp only [Command.execute, Option.pure_def] at h
    obtain ⟨target, -, h⟩ := Option.bind_eq_some.mp h
    exact close _ _ h rfl
  | music path =>
    simp only [Command.execute, Option.pure_def] at h
    split at h
    · exact close _ _ h rfl
    · exact Option.noConfusion h
  | sound path =>
    simp only [Command.execute, Option.pure_def] at h
    split at h
    · exact close _ _ h rfl
    · exact Option.noConfusion h
  | ifCmd flagName label =>
    simp only [Command.execute, Option.pure_def] at h
    split at h
    · obtain ⟨target, -, h⟩ := Option.bind_eq_some.mp h
      exact close _ _ h rfl
    · exact close _ _ h rfl
  | flag flagName =>
    simp only [Command.execute, Option.pure_def] at h
    exact close _ _ h rfl
  | unflag flagName =>
    simp only [Command.execute, Option.pure_def] at h
    exact close _ _ h rfl
  | pause =>
    simp only [Command.execute, Option.pure_def] at h
    exact close _ _ h rfl

/-- The run loop increments the execution count at least once and never
touches the recorded divergences. -/
theorem runLoop_hist (script : Script) (settings : Settings) :
    ∀ (fuel : Nat) (g g' : GameState),
      runLoop script settings fuel g = some g' →
      g.history.execution_count < g'.history.execution_count ∧
        g'.history.divergences = g.history.divergences := by
  intro fuel
  induction fuel with
  | zero => intro g g' h; simp [runLoop] at h
  | succ fuel ih =>
    intro g g' h
    rw [runLoop] at h
    cases hc : script.commands.get? (g.state.next_target.getD (g.state.target + 1)) with
    | none => rw [hc] at h; simp at h
    | some command =>
      rw [hc] at h
      simp only [Option.bind_eq_bind, Option.some_bind] at h
      obtain ⟨p, hp, h⟩ := Option.bind_eq_some.mp h
      by_cases hb : command.isBreaking
      · rw [if_pos hb] at h
        simp only [Option.pure_def, Option.some.injEq] at h
        subst h
        simp
      · rw [if_neg hb] at h
        obtain ⟨hcount, hdivs⟩ := ih _ _ h
        refine ⟨?_, ?_⟩
        · simp only at hcount
          omega
        · simpa using hdivs

/-- The run loop, entered with the text box finished or absent, leaves a state
in which a `Diverge` under the cursor implies the text box is still finished
or absent: only `Dialogue` writes the text box, and it is breaking, so if the
breaking command turns out to be the one a later lookup sees, the box is
intact. -/
theorem runLoop_divsafe (script : Script) (settings : Settings) :
    ∀ (fuel : Nat) (g g' : GameState),
      textFinishedOrNone g = true →
      runLoop script settings fuel g = some g' →
      DivSafe script g' := by
  intro fuel
  induction fuel with
  | zero => intro g g' _ h; simp [runLoop] at h
  | succ fuel ih =>
    intro g g' ht h
    rw [runLoop] at h
    cases hc : script.commands.get? (g.state.next_target.getD (g.state.target + 1)) with
    | none => rw [hc] at h; simp at h
    | some command =>
      rw [hc] at h
      simp only [Option.bind_eq_bind, Option.some_bind] at h
      obtain ⟨p, hp, h⟩ := Option.bind_eq_some.mp h
      by_cases hb : command.isBreaking
      · rw [if_pos hb] at h
        simp only [Option.pure_def, Option.some.injEq] at h
        subst h
        intro bs hbs
        have htgt : p.1.target = g.state.next_target.getD (g.state.target + 1) :=
          execute_target script settings command _ _ _ _ hp
        simp only at hbs
        rw [htgt, hc] at hbs
        injection hbs with hcmd
        subst hcmd
        have htext : p.2.text = g.render.text :=
          execute_text script settings _ _ _ _ _ (fun ch str hEq => by cases hEq) hp
        simp only [textFinishedOrNone] at ht ⊢
        rw [htext]
        exact ht
      · rw [if_neg hb] at h
        have hne : ∀ ch str, command ≠ .dialogue ch str := by
          intro ch str hEq
          rw [hEq] at hb
          exact hb rfl
        have htext : p.2.text = g.render.text :=
          execute_text script settings _ _ _ _ _ hne hp
        refine ih _ _ ?_ h
        simp only [textFinishedOrNone] at ht ⊢
        rw [htext]
        exact ht

/-- Fuel monotonicity of the run loop. -/
theorem runLoop_mono (script : Script) (settings : Settings) :
    ∀ (fuel fuel' : Nat) (g g' : GameState),
      runLoop script settings fuel g = some g' → fuel ≤ fuel' →
      runLoop script settings fuel' g = some g' := by
  intro fuel
  induction fuel with
  | zero => intro fuel' g g' h _; simp [runLoop] at h
  | succ fuel ih =>
    intro fuel' g g' h hle
    obtain ⟨fuel'', rfl⟩ : ∃ k, fuel' = k + 1 := by
      cases fuel' with
      | zero => omega
      | succ k => exact ⟨k, rfl⟩
    rw [runLoop] at h ⊢
    cases hc : script.commands.get? (g.state.next_target.getD (g.state.target + 1)) with
    | none => rw [hc] at h; simp at h
    | some command =>
      rw [hc] at h
      simp only [Option.bind_eq_bind, Option.some_bind] at h ⊢
      obtain ⟨p, hp, h⟩ := Option.bind_eq_some.mp h
      rw [hp]
      simp only [Option.some_bind]
      by_cases hb : command.isBreaking
      · rw [if_pos hb] at h ⊢
        exact h
      · rw [if_neg hb] at h ⊢
        exact ih _ _ _ h (by omega)

/-- Fuel monotonicity of `advance`. -/
theorem advance_mono (script : Script) (settings : Settings)
    (fuel fuel' : Nat) (g g' : GameState)
    (h : advance script settings fuel g = some g') (hle : fuel ≤ fuel') :
    advance script settings fuel' g = some g' := by
  rw [advance] at h ⊢
  cases ht : g.render.text with
  | none =>
    simp only [ht] at h ⊢
    exact runLoop_mono script settings fuel fuel' _ _ h hle
  | some text =>
    simp only [ht] at h ⊢
    by_cases hf : text.text.is_finished
    · rw [if_neg (by simp [hf])] at h ⊢
      exact runLoop_mono script settings fuel fuel' _ _ h hle
    · rw [if_pos (by simp [hf])] at h ⊢
      exact h

/-- Fuel monotonicity of `diverge`. -/
theorem diverge_mono (script : Script) (settings : Settings)
    (fuel fuel' : Nat) (label : String) (g g' : GameState)
    (h : diverge script settings fuel label g = some g') (hle : fuel ≤ fuel') :
    diverge script settings fuel' label g = some g' := by
  rw [diverge] at h ⊢
  obtain ⟨target, htg, h⟩ := Option.bind_eq_some.mp h
  rw [htg]
  simp only [Option.some_bind] at h ⊢
  exact advance_mono script settings fuel fuel' _ _ h hle

/-- The replay loop stops as soon as the target count is reached. -/
theorem resume_stop (script : Script) (settings : Settings)
    (fuel targetCount : Nat) (pending : List String) (g : GameState)
    (h : targetCount ≤ g.history.execution_count) :
    resume script settings fuel targetCount pending g = some (g, pending) := by
  rw [resume.eq_def]
  simp only [if_pos h]

/-- One replay step at a pending `Diverge`: pop the next recorded label. -/
theorem resume_go_div (script : Script) (settings : Settings)
    (fuel targetCount : Nat) (label : String) (pending : List String)
    (g : GameState) (bs : List (String × String))
    (hgt : ¬ targetCount ≤ g.history.execution_count)
    (hc : script.commands.get? g.state.target = some (.diverge bs)) :
    resume script settings (fuel + 1) targetCount (label :: pending) g =
      (diverge script settings fuel label g).bind
        (resume script settings fuel targetCount pending) := by
  rw [resume.eq_def]
  simp only [if_neg hgt, hc, Option.bind_eq_bind, Option.some_bind]

/-- One replay step anywhere else: advance. -/
theorem resume_go_adv (script : Script) (settings : Settings)
    (fuel targetCount : Nat) (pending : List String)
    (g : GameState) (c : Command)
    (hgt : ¬ targetCount ≤ g.history.execution_count)
    (hc : script.commands.get? g.state.target = some c)
    (hnd : isDivergeCmd c = false) :
    resume script settings (fuel + 1) targetCount pending g =
      (advance script settings fuel g).bind
        (resume script settings fuel targetCount pending) := by
  rw [resume.eq_def]
  cases c <;> simp only [isDivergeCmd, reduceCtorEq] at hnd <;>
    simp only [if_neg hgt, hc, Option.bind_eq_bind, Option.some_bind]

/-- A replay that has not reached its target count fails on empty fuel. -/
theorem resume_none_fuel (script : Script) (settings : Settings)
    (targetCount : Nat) (pending : List String) (g : GameState)
    (hgt : ¬ targetCount ≤ g.history.execution_count) :
    resume script settings 0 targetCount pending g = none := by
  rw [resume.eq_def]
  simp only [if_neg hgt]

/-- A replay step fails when the cursor is out of range. -/
theorem resume_none_cmd (script : Script) (settings : Settings)
    (fuel targetCount : Nat) (pending : List String) (g : GameState)
    (hgt : ¬ targetCount ≤ g.history.execution_count)
    (hc : script.commands.get? g.state.target = none) :
    resume script settings (fuel + 1) targetCount pending g = none := by
  rw [resume.eq_def]
  simp only [if_neg hgt, hc, Option.bind_eq_bind, Option.none_bind]

/-- A replay step at a `Diverge` fails when no recorded divergence is left. -/
theorem resume_none_div (script : Script) (settings : Settings)
    (fuel targetCount : Nat) (g : GameState) (bs : List (String × String))
    (hgt : ¬ targetCount ≤ g.history.execution_count)
    (hc : script.commands.get? g.state.target = some (.diverge bs)) :
    resume script settings (fuel + 1) targetCount [] g = none := by
  rw [resume.eq_def]
  simp only [if_neg hgt, hc, Option.bind_eq_bind, Option.some_bind]

/-- Fuel monotonicity of the replay loop. -/
theorem resume_mono (script : Script) (settings : Settings) :
    ∀ (fuel fuel' targetCount : Nat) (pending : List String)
      (g : GameState) (r : GameState × List String),
      resume script settings fuel targetCount pending g = some r →
      fuel ≤ fuel' →
      resume script settings fuel' targetCount pending g = some r := by
  intro fuel
  induction fuel with
  | zero =>
    intro fuel' tc p g r h _
    by_cases hstop : tc ≤ g.history.execution_count
    · rw [resume_stop script settings 0 tc p g hstop] at h
      rw [resume_stop script settings fuel' tc p g hstop]
      exact h
    · rw [resume_none_fuel script settings tc p g hstop] at h
      exact Option.noConfusion h
  | succ fuel ih =>
    intro fuel' tc p g r h hle
    by_cases hstop : tc ≤ g.history.execution_count
    · rw [resume_stop script settings (fuel + 1) tc p g hstop] at h
      rw [resume_stop script settings fuel' tc p g hstop]
      exact h
    · obtain ⟨fuel'', rfl⟩ : ∃ k, fuel' = k + 1 := by
        cases fuel' with
        | zero => omega
        | succ k => exact ⟨k, rfl⟩
      cases hc : script.commands.get? g.state.target with
      | none =>
        rw [resume_none_cmd script settings fuel tc p g hstop hc] at h
        exact Option.noConfusion h
      | some c =>
        by_cases hdiv : ∃ bs, c = Command.diverge bs
        · obtain ⟨bs, rfl⟩ := hdiv
          cases p with
          | nil =>
            rw [resume_none_div script settings fuel tc g bs hstop hc] at h
            exact Option.noConfusion h
          | cons label rest =>
            rw [resume_go_div script settings fuel tc label rest g bs hstop hc] at h
            rw [resume_go_div script settings fuel'' tc label rest g bs hstop hc]
            obtain ⟨g₂, hd, hres⟩ := Option.bind_eq_some.mp h
            rw [diverge_mono script settings fuel fuel'' label g g₂ hd (by omega)]
            simp only [Option.some_bind]
            exact ih _ _ _ _ _ hres (by omega)
        · have hnd : isDivergeCmd c = false := by
            cases c
            case diverge bs => exact absurd ⟨_, rfl⟩ hdiv
            all_goals rfl
          rw [resume_go_adv script settings fuel tc p g c hstop hc hnd] at h
          rw [resume_go_adv script settings fuel'' tc p g c hstop hc hnd]
          obtain ⟨g₂, ha, hres⟩ := Option.bind_eq_some.mp h
          rw [advance_mono script settings fuel fuel'' g g₂ ha (by omega)]
          simp only [Option.some_bind]
          exact ih _ _ _ _ _ hres (by omega)

/-- Replays compose: a full replay to an intermediate state followed by a
replay to a further count is a single replay, with the two recorded
divergence lists concatenated. -/
theorem resume_append (script : Script) (settings : Settings)
    (tc1 tc2 f2 : Nat) (d2 : List String) (r : GameState × List String)
    (hcc : tc1 ≤ tc2) :
    ∀ (f1 : Nat) (d1 : List String) (g t : GameState),
      resume script settings f1 tc1 d1 g = some (t, []) →
      resume script settings f2 tc2 d2 t = some r →
      resume script settings (f1 + f2) tc2 (d1 ++ d2) g = some r := by
  intro f1
  induction f1 with
  | zero =>
    intro d1 g t h1 h2
    by_cases hstop : tc1 ≤ g.history.execution_count
    · rw [resume_stop script settings 0 tc1 d1 g hstop] at h1
      injection h1 with h1
      injection h1 with hgt hd1
      subst hgt
      subst hd1
      simpa using resume_mono script settings f2 (0 + f2) tc2 d2 g r h2 (by omega)
    · rw [resume_none_fuel script settings tc1 d1 g hstop] at h1
      exact Option.noConfusion h1
  | succ f1 ih =>
    intro d1 g t h1 h2
    by_cases hstop : tc1 ≤ g.history.execution_count
    · rw [resume_stop script settings (f1 + 1) tc1 d1 g hstop] at h1
      injection h1 with h1
      injection h1 with hgt hd1
      subst hgt
      subst hd1
      simpa using resume_mono script settings f2 (f1 + 1 + f2) tc2 d2 g r h2 (by omega)
    · have hgt2 : ¬ tc2 ≤ g.history.execution_count := by omega
      have harith : f1 + 1 + f2 = (f1 + f2) + 1 := by omega
      cases hc : script.commands.get? g.state.target with
      | none =>
        rw [resume_none_cmd script settings f1 tc1 d1 g hstop hc] at h1
        exact Option.noConfusion h1
      | some c =>
        by_cases hdiv : ∃ bs, c = Command.diverge bs
        · obtain ⟨bs, rfl⟩ := hdiv
          cases d1 with
          | nil =>
            rw [resume_none_div script settings f1 tc1 g bs hstop hc] at h1
            exact Option.noConfusion h1
          | cons label rest =>
            rw [resume_go_div script settings f1 tc1 label rest g bs hstop hc] at h1
            obtain ⟨g₂, hd, hres⟩ := Option.bind_eq_some.mp h1
            rw [harith, List.cons_append]
            rw [resume_go_div script settings (f1 + f2) tc2 label (rest ++ d2) g bs hgt2 hc]
            rw [diverge_mono script settings f1 (f1 + f2) label g g₂ hd (by omega)]
            simp only [Option.some_bind]
            exact ih rest g₂ t hres h2
        · have hnd : isDivergeCmd c = false := by
            cases c
            case diverge bs => exact absurd ⟨_, rfl⟩ hdiv
            all_goals rfl
          rw [resume_go_adv script settings f1 tc1 d1 g c hstop hc hnd] at h1
          obtain ⟨g₂, ha, hres⟩ := Option.bind_eq_some.mp h1
          rw [harith]
          rw [resume_go_adv script settings (f1 + f2) tc2 (d1 ++ d2) g c hgt2 hc hnd]
          rw [advance_mono script settings f1 (f1 + f2) g g₂ ha (by omega)]
          simp only [Option.some_bind]
          exact ih d1 g₂ t hres h2

/-- When the dialogue reveal is unfinished, `advance` short-circuits and its
result does not depend on the fuel at all. -/
theorem advance_sc_eq (script : Script) (settings : Settings) (fuel : Nat)
    (g : GameState) (htf : textFinishedOrNone g = false) :
    advance script settings fuel g = advance script settings 0 g := by
  cases ht : g.render.text with
  | none => simp [textFinishedOrNone, ht] at htf
  | some tb =>
    simp only [textFinishedOrNone, ht] at htf
    simp only [advance, ht]
    rw [if_pos (by simp [htf]), if_pos (by simp [htf])]

/-- The facts about a short-circuited `advance`: the history and script state
are untouched, the reveal ends finished, and the same result is produced with
zero fuel. -/
theorem sc_facts (script : Script) (settings : Settings) (fuel : Nat)
    (g g' : GameState) (htf : textFinishedOrNone g = false)
    (h : advance script settings fuel g = some g') :
    g'.history = g.history ∧ g'.state = g.state ∧
      textFinishedOrNone g' = true ∧
      advance script settings 0 g = some g' := by
  rw [advance_sc_eq script settings fuel g htf] at h
  refine ⟨?_, ?_, ?_, h⟩ <;>
  · cases ht : g.render.text with
    | none => simp [textFinishedOrNone, ht] at htf
    | some tb =>
      simp only [textFinishedOrNone, ht] at htf
      rw [advance] at h
      simp only [ht] at h
      rw [if_pos (by simp [htf])] at h
      injection h with h
      subst h
      simp [textFinishedOrNone]

/-- An `advance` that goes through the run loop (text finished or absent)
strictly increases the execution count, keeps the recorded divergences, and
restores the diverge-safety invariant. -/
theorem advance_count (script : Script) (settings : Settings) (fuel : Nat)
    (g g' : GameState) (htf : textFinishedOrNone g = true)
    (h : advance script settings fuel g = some g') :
    g.history.execution_count < g'.history.execution_count ∧
      g'.history.divergences = g.history.divergences ∧
      DivSafe script g' := by
  rw [advance] at h
  cases ht : g.render.text with
  | none =>
    simp only [ht] at h
    obtain ⟨hlt, hdiv⟩ := runLoop_hist script settings fuel _ _ h
    refine ⟨by simpa using hlt, by simpa using hdiv,
      runLoop_divsafe script settings fuel _ _ ?_ h⟩
    simp [textFinishedOrNone, ht]
  | some tb =>
    have hfin : tb.text.is_finished = true := by
      simpa only [textFinishedOrNone, ht] using htf
    simp only [ht] at h
    rw [if_neg (by simp [hfin])] at h
    obtain ⟨hlt, hdiv⟩ := runLoop_hist script settings fuel _ _ h
    refine ⟨by simpa using hlt, by simpa using hdiv,
      runLoop_divsafe script settings fuel _ _ ?_ h⟩
    simp [textFinishedOrNone, hfin]

/-- A `diverge` from a state whose reveal is finished strictly increases the
execution count, appends exactly the chosen label to the recorded
divergences, and restores the diverge-safety invariant. -/
theorem diverge_count (script : Script) (settings : Settings) (fuel : Nat)
    (label : String) (g g' : GameState) (htf : textFinishedOrNone g = true)
    (h : diverge script settings fuel label g = some g') :
    g.history.execution_count < g'.history.execution_count ∧
      g'.history.divergences = g.history.divergences ++ [label] ∧
      DivSafe script g' := by
  rw [diverge] at h
  obtain ⟨target, htg, h⟩ := Option.bind_eq_some.mp h
  simp only [Option.some_bind] at h
  have htfm : textFinishedOrNone
      { history := { g.history with divergences := g.history.divergences ++ [label] },
        state := { g.state with next_target := some target },
        render := { g.render with branches := [] } } = true := by
    rw [textFinishedOrNone] at htf ⊢
    exact htf
  obtain ⟨hlt, hdiv, hds⟩ := advance_count script settings fuel _ _ htfm h
  exact ⟨hlt, by simpa using hdiv, hds⟩

/-- Preservation of the invariant by a live `advance` input, together with
alignment of the result whenever the input found the reveal finished. -/
theorem tracked_adv (script : Script) (settings : Settings) (fuel : Nat)
    (g₁ g : GameState) (c : Command)
    (hc : script.commands.get? g₁.state.target = some c)
    (hnd : isDivergeCmd c = false)
    (ha : advance script settings fuel g₁ = some g)
    (h : Tracked script settings g₁) :
    Tracked script settings g ∧
      (textFinishedOrNone g₁ = true → Aligned script settings g) := by
  cases htf : textFinishedOrNone g₁ with
  | false =>
    obtain ⟨hhist, hstate, htfg, hsc0⟩ := sc_facts script settings fuel g₁ g htf ha
    rcases h with ⟨hA, hD⟩ | ⟨g₀, c₀, hA0, hc0, hnd0, htf0, hsc⟩
    · refine ⟨Or.inr ⟨g₁, c, hA, hc, hnd, htf, hsc0⟩, ?_⟩
      intro hcontra
      exact Bool.noConfusion hcontra
    · obtain ⟨-, -, htfg₁, -⟩ := sc_facts script settings 0 g₀ g₁ htf0 hsc
      rw [htf] at htfg₁
      exact Bool.noConfusion htfg₁
  | true =>
    obtain ⟨hlt, hdivs, hDS⟩ := advance_count script settings fuel g₁ g htf ha
    rcases h with ⟨⟨f1, h1⟩, hD⟩ | ⟨g₀, c₀, hA0, hc0, hnd0, htf0, hsc⟩
    · have h2 : resume script settings (fuel + 1 + 1) g.history.execution_count
          [] g₁ = some (g, []) := by
        rw [resume_go_adv script settings (fuel + 1) g.history.execution_count
          [] g₁ c (by omega) hc hnd]
        rw [advance_mono script settings fuel (fuel + 1) g₁ g ha (by omega)]
        simp only [Option.some_bind]
        exact resume_stop script settings (fuel + 1) _ [] g (le_refl _)
      have hcomp := resume_append script settings g₁.history.execution_count
        g.history.execution_count (fuel + 1 + 1) [] (g, []) (by omega) f1
        g₁.history.divergences boot g₁ h1 h2
      have hal : Aligned script settings g := by
        refine ⟨f1 + (fuel + 1 + 1), ?_⟩
        rw [hdivs]
        simpa using hcomp
      exact ⟨Or.inl ⟨hal, hDS⟩, fun _ => hal⟩
    · obtain ⟨hhist0, hstate0, htfg₁, hsc0⟩ := sc_facts script settings 0 g₀ g₁ htf0 hsc
      obtain ⟨f0, h0⟩ := hA0
      have hc0' : script.commands.get? g₀.state.target = some c := by
        rw [← hstate0]
        exact hc
      have hcnt0 : g₀.history.execution_count = g₁.history.execution_count := by
        rw [hhist0]
      have h2 : resume script settings (fuel + 1 + 1 + 1) g.history.execution_count
          [] g₀ = some (g, []) := by
        rw [resume_go_adv script settings (fuel + 1 + 1) g.history.execution_count
          [] g₀ c (by omega) hc0' hnd]
        rw [advance_mono script settings 0 (fuel + 1 + 1) g₀ g₁ hsc0 (by omega)]
        simp only [Option.some_bind]
        rw [resume_go_adv script settings (fuel + 1) g.history.execution_count
          [] g₁ c (by omega) hc hnd]
        rw [advance_mono script settings fuel (fuel + 1) g₁ g ha (by omega)]
        simp only [Option.some_bind]
        exact resume_stop script settings (fuel + 1) _ [] g (le_refl _)
      have hcomp := resume_append script settings g₀.history.execution_count
        g.history.execution_count (fuel + 1 + 1 + 1) [] (g, []) (by omega) f0
        g₀.history.divergences boot g₀ h0 h2
      have hdivs0 : g.history.divergences = g₀.history.divergences := by
        rw [hdivs, hhist0]
      have hal : Aligned script settings g := by
        refine ⟨f0 + (fuel + 1 + 1 + 1), ?_⟩
        rw [hdivs0]
        simpa using hcomp
      exact ⟨Or.inl ⟨hal, hDS⟩, fun _ => hal⟩

/-- Preservation of the invariant by a live branch click, with alignment of
the result: the recorded label is consumed by the replay in order. -/
theorem tracked_div (script : Script) (settings : Settings) (fuel : Nat)
    (g₁ g : GameState) (bs : List (String × String)) (label : String)
    (hc : script.commands.get? g₁.state.target = some (.diverge bs))
    (hd : diverge script settings fuel label g₁ = some g)
    (h : Tracked script settings g₁) :
    Tracked script settings g ∧ Aligned script settings g := by
  rcases h with ⟨⟨f1, h1⟩, hD⟩ | ⟨g₀, c₀, hA0, hc0, hnd0, htf0, hsc⟩
  · have htf : textFinishedOrNone g₁ = true := hD bs hc
    obtain ⟨hlt, hdivs, hDS⟩ := diverge_count script settings fuel label g₁ g htf hd
    have h2 : resume script settings (fuel + 1 + 1) g.history.execution_count
        [label] g₁ = some (g, []) := by
      rw [resume_go_div script settings (fuel + 1) g.history.execution_count
        label [] g₁ bs (by omega) hc]
      rw [diverge_mono script settings fuel (fuel + 1) label g₁ g hd (by omega)]
      simp only [Option.some_bind]
      exact resume_stop script settings (fuel + 1) _ [] g (le_refl _)
    have hcomp := resume_append script settings g₁.history.execution_count
      g.history.execution_count (fuel + 1 + 1) [label] (g, []) (by omega) f1
      g₁.history.divergences boot g₁ h1 h2
    have hal : Aligned script settings g := by
      refine ⟨f1 + (fuel + 1 + 1), ?_⟩
      rw [hdivs]
      exact hcomp
    exact ⟨Or.inl ⟨hal, hDS⟩, hal⟩
  · obtain ⟨hhist0, hstate0, htfg₁, hsc0⟩ := sc_facts script settings 0 g₀ g₁ htf0 hsc
    rw [hstate0] at hc
    rw [hc] at hc0
    injection hc0 with hc0
    rw [← hc0] at hnd0
    exact Bool.noConfusion hnd0

/-- Preservation of the invariant by any live input, with alignment whenever
an `advance` input found the reveal finished (branch clicks always align). -/
theorem tracked_step (script : Script) (settings : Settings) (fuel : Nat)
    (ev : Ev) (g₁ g : GameState)
    (h : Tracked script settings g₁)
    (hs : liveStep script settings fuel ev g₁ = some g) :
    Tracked script settings g ∧
      ((ev = Ev.adv → textFinishedOrNone g₁ = true) →
        Aligned script settings g) := by
  rw [liveStep] at hs
  obtain ⟨c, hc, harm⟩ := Option.bind_eq_some.mp hs
  cases ev with
  | adv =>
    cases c
    case diverge bs => exact Option.noConfusion harm
    all_goals
      obtain ⟨ht, hal⟩ := tracked_adv script settings fuel g₁ g _ hc rfl harm h
    all_goals
      exact ⟨ht, fun hfin => hal (hfin rfl)⟩
  | div label =>
    cases c
    case diverge bs =>
      replace harm : (if label ∈ branchLabels g₁ then
          diverge script settings fuel label g₁ else none) = some g := harm
      split at harm
      · obtain ⟨ht, hal⟩ := tracked_div script settings fuel g₁ g bs label hc harm h
        exact ⟨ht, fun _ => hal⟩
      · exact Option.noConfusion harm
    all_goals exact Option.noConfusion harm

/-- The boot state is reproduced by a zero-step replay. -/
theorem boot_tracked (script : Script) (settings : Settings) :
    Tracked script settings boot :=
  Or.inl ⟨⟨0, resume_stop script settings 0 0 [] boot (le_refl 0)⟩,
    fun _ _ => rfl⟩

/-- The invariant holds at every state a live run reaches. -/
theorem liveRun_tracked (script : Script) (settings : Settings) (fuel : Nat) :
    ∀ (evs : List Ev) (g₀ g : GameState),
      Tracked script settings g₀ →
      liveRun script settings fuel evs g₀ = some g →
      Tracked script settings g := by
  intro evs
  induction evs with
  | nil =>
    intro g₀ g h hr
    replace hr : (some g₀ : Option GameState) = some g := hr
    injection hr with hr
    subst hr
    exact h
  | cons ev evs ih =>
    intro g₀ g h hr
    replace hr : (liveStep script settings fuel ev g₀).bind
        (liveRun script settings fuel evs) = some g := hr
    obtain ⟨g₁, h1, h2⟩ := Option.bind_eq_some.mp hr
    exact ih g₁ g (tracked_step script settings fuel ev g₀ g₁ h h1).1 h2

/-- C1 (amended): after any live input sequence, provided the run is observed
right after an input that reached the run loop (a branch click, or an advance
whose dialogue reveal was already finished — an advance consumed by finishing
a reveal leaves a state the replay only reaches lazily), `GameState::load` of
the recorded history reproduces the live state exactly: the replay loop from
the boot state returns the very same `GameState` — history, `ScriptState`
and full `Render` including the stage — with the recorded divergences
consumed in order and none left over. -/
theorem resume_matches_live_c1 (script : Script) (settings : Settings)
    (fuel : Nat) (evs : List Ev) (ev : Ev) (g₁ g : GameState)
    (hrun : liveRun script settings fuel evs boot = some g₁)
    (hstep : liveStep script settings fuel ev g₁ = some g)
    (hfin : ev = Ev.adv → textFinishedOrNone g₁ = true) :
    ∃ fr, resume script settings fr g.history.execution_count
        g.history.divergences boot = some (g, []) ∧
      load script settings fr g.history = some g := by
  have htr := liveRun_tracked script settings fuel evs boot g₁
    (boot_tracked script settings) hrun
  obtain ⟨-, hal⟩ := tracked_step script settings fuel ev g₁ g htr hstep
  obtain ⟨fr, hres⟩ := hal hfin
  refine ⟨fr, hres, ?_⟩
  rw [load]
  rw [hres]
  simp

set_option maxHeartbeats 2000000 in
/-- Witness for `resume_matches_live_c1`: scenario B run live — advance to
the choice, click the left branch — then reloaded from its history. -/
theorem resume_matches_live_c1_witness :
    ∃ (g₁ g : GameState),
      liveRun scriptB Settings.default 10 [Ev.adv, Ev.adv, Ev.adv] boot = some g₁ ∧
      liveStep scriptB Settings.default 10 (Ev.div "l-left") g₁ = some g ∧
      ∃ fr, resume scriptB Settings.default fr g.history.execution_count
          g.history.divergences boot = some (g, []) ∧
        load scriptB Settings.default fr g.history = some g := by
  refine ⟨_, _, rfl, rfl, ?_⟩
  exact resume_matches_live_c1 scriptB Settings.default 10
    [Ev.adv, Ev.adv, Ev.adv] (Ev.div "l-left") _ _ rfl rfl (fun h => nomatch h)

set_option maxHeartbeats 2000000 in
/-- Counterexample to the unconditional claim: on `scriptKillFade`, four live
advances end with a short-circuited advance whose `finish_animation` sweeps
the to-be-killed instance `"C"` off the stage; the replay stops as soon as
`execution_count` reaches the recorded 4 and never performs that sweep, so
the loaded stage still holds `"C"` while the live stage does not. -/
theorem resume_differs_from_live_c1 :
    ∃ (g gr : GameState),
      liveRun scriptKillFade Settings.default 10
        [Ev.adv, Ev.adv, Ev.adv, Ev.adv] boot = some g ∧
      g.history = { execution_count := 4, divergences := [] } ∧
      load scriptKillFade Settings.default 10
        { execution_count := 4, divergences := [] } = some gr ∧
      (alGet "C" gr.render.stage).isSome = true ∧
      (alGet "C" g.render.stage).isSome = false := by
  exact ⟨_, _, rfl, rfl, rfl, rfl, rfl⟩
end Kanna
